import Mathlib

/-!
# OpenLI export buffer and exporter: a shallow embedding of `src/export_buffer.c`
and `src/collector_export.c`

The C buffer is a `realloc`-ed byte region addressed through raw pointers.
Here the region is a flat memory `mem : Nat → Nat` indexed by the offset from
`bufhead`; `used` is `buftail - bufhead`.  Offsets at or above `used` are the
slack of the allocation (and whatever lies behind it): the source never
initialises them, so nothing below depends on their values.

Sizes and offsets are natural numbers.  The one subtraction of the source that
wraps for small, ordinary inputs (`sent -= offset` in
`transmit_buffered_records`) is modelled with its 64-bit wrap-around.  The
remaining arithmetic is that of the source on values below the width of its C
type: the casts `(int)sent` and `(uint32_t)ret` are the identity below
`2 ^ 31`.  Where a theorem needs the range of a C type (`int` for the result
of `send`, `uint32_t` for `partialfront`) it says so in a hypothesis.

What the environment decides is an argument of the model: the outcome of each
`realloc` in `extend_buffer` (`alloc`), the answer of `send` (`sock`), and the
record framing that is declared outside this file (`framing`).  Logging has no
effect on the buffer and is left out.

The exporter of `collector_export.c` follows the buffer: its destination list
is a `List`, a producer queue is the list of messages waiting in it when a
call starts, and the results of `connect`, `send` and `epoll_wait` are
arguments.
-/

namespace OpenLI

/-! ## Constants and the buffer record -/

/-- The growth increment `BUFFER_ALLOC_SIZE`, `(1024 * 1024 * 10)`. -/
def BUFFER_ALLOC_SIZE : Nat := 1024 * 1024 * 10

/-- The type `export_buffer_t`: `mem i` is the byte at `bufhead + i`, `used` is
`buftail - bufhead`. -/
structure export_buffer where
  mem : Nat → Nat
  used : Nat
  alloced : Nat
  partialfront : Nat
  deadfront : Nat
  hasnetcomm : Bool

/-- The `n` bytes of memory `m` starting at offset `off`. -/
def region (m : Nat → Nat) (off n : Nat) : List Nat :=
  (List.range n).map (fun i => m (off + i))

/-- The call `memmove(bufhead + dst, bufhead + src, n)`: the source bytes are read
before any byte is written. -/
def memmove (m : Nat → Nat) (dst src n : Nat) : Nat → Nat :=
  fun i => if dst ≤ i ∧ i < dst + n then m (src + (i - dst)) else m i

/-- The call `memcpy(bufhead + dst, src, n)` from memory outside the buffer. -/
def memcpy (m : Nat → Nat) (dst : Nat) (src : List Nat) (n : Nat) : Nat → Nat :=
  fun i => if dst ≤ i ∧ i < dst + n then src.getD (i - dst) 0 else m i

/-- Function `init_export_buffer`: `bufhead = buftail = NULL`, nothing allocated. -/
def init_export_buffer (hasnetcomm : Bool) : export_buffer :=
  { mem := fun _ => 0, used := 0, alloced := 0, partialfront := 0,
    deadfront := 0, hasnetcomm := hasnetcomm }

/-- Function `get_buffered_amount`: `buftail - (bufhead + deadfront)`. -/
def get_buffered_amount (buf : export_buffer) : Nat :=
  buf.used - buf.deadfront

/-- The unsent bytes of the buffer, from `bufhead + deadfront` to `buftail`. -/
def live (buf : export_buffer) : List Nat :=
  region buf.mem buf.deadfront (buf.used - buf.deadfront)

/-! ## Growing and appending -/

/-- Function `extend_buffer`.  `ok` is the outcome of the `realloc` call: `false` is a
`NULL` result.  The `memmove` happens before the `realloc`, as in the source.
The returned number is the function's result (`0` on failure). -/
def extend_buffer (ok : Bool) (buf : export_buffer) : export_buffer × Nat :=
  let bufused := buf.used - buf.deadfront
  let mem1 := if buf.deadfront > 0 then memmove buf.mem 0 buf.deadfront bufused
              else buf.mem
  if ok then
    let buf1 : export_buffer :=
      { mem := mem1, used := bufused, alloced := buf.alloced + BUFFER_ALLOC_SIZE,
        partialfront := buf.partialfront, deadfront := 0,
        hasnetcomm := buf.hasnetcomm }
    (buf1, buf1.alloced - bufused)
  else
    ({ buf with mem := mem1 }, 0)

/-- The loop `while (spaceleft < need) { spaceleft = extend_buffer(buf);
if (spaceleft == 0) return 0; }` shared by both append functions.  `alloc k`
is the outcome of the `k`-th `realloc` of the call.  The Boolean of the result
tells whether the loop left through `return 0`.  `none` means the fuel ran
out. -/
def extend_loop (alloc : Nat → Bool) (need : Nat) :
    Nat → Nat → export_buffer → Nat → Option (export_buffer × Bool)
  | 0, _, buf, spaceleft =>
      if spaceleft < need then none else some (buf, false)
  | fuel + 1, k, buf, spaceleft =>
      if spaceleft < need then
        let r := extend_buffer (alloc k) buf
        if r.2 = 0 then some (r.1, true)
        else extend_loop alloc need fuel (k + 1) r.1 r.2
      else some (buf, false)

/-- What an append call leaves behind: the buffer, the returned number, and
whether the call left through the `return 0` that follows a failed
`extend_buffer`. -/
structure append_result where
  buf : export_buffer
  ret : Nat
  oom : Bool

/-- Function `append_etsipdu_to_buffer`.  `pdustart` is the memory at the pointer of
that name. -/
def append_etsipdu_to_buffer (alloc : Nat → Bool) (buf : export_buffer)
    (pdustart : List Nat) (pdulen beensent : Nat) : Option append_result :=
  let bufused := buf.used
  let spaceleft := buf.alloced - bufused
  let buf0 := if bufused = 0 then { buf with partialfront := beensent } else buf
  match extend_loop alloc pdulen (pdulen + 1) 0 buf0 spaceleft with
  | none => none
  | some (buf1, true) => some { buf := buf1, ret := 0, oom := true }
  | some (buf1, false) =>
      let buf2 := { buf1 with mem := memcpy buf1.mem buf1.used pdustart pdulen,
                              used := buf1.used + pdulen }
      some { buf := buf2, ret := buf2.used, oom := false }

/-- The type `openli_exportmsg_t`, the fields `append_message_to_buffer` reads.
`header` and `liid` are pointers that may be `NULL` (`none`);
`msgbody_encoded` and `msgbody_len` are `msgbody->encoded` and
`msgbody->len`. -/
structure openli_exportmsg where
  msgbody_encoded : List Nat
  msgbody_len : Nat
  ipcontents : List Nat
  ipclen : Nat
  header : Option (List Nat)
  hdrlen : Nat
  liid : Option (List Nat)
  liidlen : Nat

/-- The two bytes of `uint16_t l = htons(liidlen)` in memory order. -/
def htons_bytes (n : Nat) : List Nat := [(n / 256) % 256, n % 256]

/-- The block `if (msg->header) { memcpy(buf->buftail, msg->header,
msg->hdrlen); buf->buftail += msg->hdrlen; }`. -/
def write_header (buf : export_buffer) (msg : openli_exportmsg) : export_buffer :=
  match msg.header with
  | some h => { buf with mem := memcpy buf.mem buf.used h msg.hdrlen,
                         used := buf.used + msg.hdrlen }
  | none => buf

/-- The block `if (msg->liid)`: the two bytes of `htons(msg->liidlen)`, the
identifier behind them, and `buf->buftail += (msg->liidlen + 2)`. -/
def write_liid (buf : export_buffer) (msg : openli_exportmsg) : export_buffer :=
  match msg.liid with
  | some l =>
      let m1 := memcpy buf.mem buf.used (htons_bytes msg.liidlen) 2
      { buf with mem := memcpy m1 (buf.used + 2) l msg.liidlen,
                 used := buf.used + (msg.liidlen + 2) }
  | none => buf

/-- The copy of `enclen = msg->msgbody->len - msg->ipclen` bytes of
`msg->msgbody->encoded`. -/
def write_body (buf : export_buffer) (msg : openli_exportmsg) : export_buffer :=
  let enclen := msg.msgbody_len - msg.ipclen
  { buf with mem := memcpy buf.mem buf.used msg.msgbody_encoded enclen,
             used := buf.used + enclen }

/-- The block `if (msg->ipclen > 0)` that copies the raw trailer. -/
def write_ipcontents (buf : export_buffer) (msg : openli_exportmsg) : export_buffer :=
  if msg.ipclen > 0 then
    { buf with mem := memcpy buf.mem buf.used msg.ipcontents msg.ipclen,
               used := buf.used + msg.ipclen }
  else buf

/-- The copying part of `append_message_to_buffer`, from `if (msg->header)`
to the last `buf->buftail += msg->ipclen`. -/
def write_message (buf1 : export_buffer) (msg : openli_exportmsg) : export_buffer :=
  write_ipcontents (write_body (write_liid (write_header buf1 msg) msg) msg) msg

/-- Function `append_message_to_buffer`: the hint, the growth loop, then the
copies of `write_message`. -/
def append_message_to_buffer (alloc : Nat → Bool) (buf : export_buffer)
    (msg : openli_exportmsg) (beensent : Nat) : Option append_result :=
  let bufused := buf.used
  let spaceleft := buf.alloced - bufused
  let buf0 := if bufused = 0 then { buf with partialfront := beensent } else buf
  let need := msg.msgbody_len + msg.hdrlen + msg.liidlen + 2
  match extend_loop alloc need (need + 1) 0 buf0 spaceleft with
  | none => none
  | some (buf1, true) => some { buf := buf1, ret := 0, oom := true }
  | some (buf1, false) =>
      let buf5 := write_message buf1 msg
      some { buf := buf5, ret := buf5.used, oom := false }

/-! ## Transmitting -/

/-- What `transmit_buffered_records` needs to know about record framing and
is declared outside `export_buffer.c`: `hdrsize` is `sizeof(ii_header_t)`
(positive, as the size of any C struct), `bodylen` reads
`ntohs(header->bodylen)` from the `hdrsize` bytes of a header, and
`etsili_pdu_length` is the result of `wandder_etsili_get_pdu_length` on the
bytes attached to the decoder. -/
structure framing where
  hdrsize : Nat
  hdrsize_pos : 0 < hdrsize
  bodylen : List Nat → Nat
  etsili_pdu_length : List Nat → Nat

/-- The `pdulen` computed in the body of the scanning loop for the record at
offset `pos` from `bufhead` (`pos` is `bhead + sent`). -/
def pdulen_at (fr : framing) (buf : export_buffer) (pos : Nat) : Nat :=
  if buf.hasnetcomm then
    fr.bodylen (region buf.mem pos fr.hdrsize) + fr.hdrsize
  else
    let attachlen := if buf.used - pos < 10000 then buf.used - pos else 10000
    fr.etsili_pdu_length (region buf.mem pos attachlen)

/-- The loop `while (bhead + sent < buf->buftail)` of
`transmit_buffered_records`; the result is `sent` when the loop ends, `none`
when the fuel runs out. -/
def scan_records (fr : framing) (buf : export_buffer) (bytelimit : Nat) :
    Nat → Nat → Option Nat
  | 0, sent => if buf.deadfront + sent < buf.used then none else some sent
  | fuel + 1, sent =>
      if buf.deadfront + sent < buf.used then
        let pdulen := pdulen_at fr buf (buf.deadfront + sent)
        if buf.hasnetcomm = false ∧ pdulen = 0 then some sent
        else if sent + pdulen > bytelimit then some sent
        else scan_records fr buf bytelimit fuel (sent + pdulen)
      else some sent

/-- Subtraction of `uint64_t` operands: it wraps around when `b` exceeds
`a`. -/
def sub_u64 (a b : Nat) : Nat :=
  if b ≤ a then a - b else 2 ^ 64 - (b - a)

/-- Outcome of the `send` call: `accepted r` is a result `r ≥ 0`, `eagain` a
negative result with `errno == EAGAIN`, `failed` a negative result with any
other `errno`. -/
inductive send_outcome where
  | accepted (r : Nat)
  | eagain
  | failed

/-- What a call of `transmit_buffered_records` leaves behind: the buffer, the
returned `int`, and the byte range handed to `send` (offset from `bufhead`
and length), if `send` was called. -/
structure transmit_result where
  buf : export_buffer
  ret : Int
  offered : Option (Nat × Nat)

/-- The tail of `transmit_buffered_records` from the `assert` on: the two
compaction branches, the reset of `partialfront` and `return sent`.  `src`
is `bhead + sent + offset` as an offset from `bufhead`.  The `realloc` of the
first branch is used unchecked by the source; the model follows the run in
which it returns a block.  The comparisons against `0.25 * buf->alloced` are
exact in `double`, so they are stated over the integers. -/
def shrink_after (buf : export_buffer) (src sent : Nat)
    (offered : Option (Nat × Nat)) : transmit_result :=
  let rem := buf.used - buf.deadfront
  if rem < buf.alloced / 2 ∧ buf.alloced > 10 * BUFFER_ALLOC_SIZE then
    let resize := (rem / BUFFER_ALLOC_SIZE + 1) * BUFFER_ALLOC_SIZE
    { buf := { mem := memmove buf.mem 0 src rem, used := rem, alloced := resize,
               partialfront := 0, deadfront := 0, hasnetcomm := buf.hasnetcomm },
      ret := (sent : Int), offered := offered }
  else if 4 * (buf.alloced - buf.used) < buf.alloced ∧
      buf.alloced ≤ 4 * buf.deadfront then
    let mem1 := if rem > 0 then memmove buf.mem 0 src rem else buf.mem
    { buf := { mem := mem1, used := rem, alloced := buf.alloced,
               partialfront := 0, deadfront := 0, hasnetcomm := buf.hasnetcomm },
      ret := (sent : Int), offered := offered }
  else
    { buf := { buf with partialfront := 0 }, ret := (sent : Int),
      offered := offered }

/-- Function `transmit_buffered_records`.  `sock len` is what `send` answers
when it is handed `len` bytes. -/
def transmit_buffered_records (fr : framing) (buf : export_buffer)
    (sock : Nat → send_outcome) (bytelimit : Nat) : Option transmit_result :=
  let bhead := buf.deadfront
  let offset := buf.partialfront
  match scan_records fr buf bytelimit (buf.used - buf.deadfront + 1) 0 with
  | none => none
  | some scanned =>
      let sent := sub_u64 scanned offset
      if sent ≠ 0 then
        let offered := some (bhead + offset, sent)
        match sock sent with
        | send_outcome.eagain => some { buf := buf, ret := 0, offered := offered }
        | send_outcome.failed => some { buf := buf, ret := -1, offered := offered }
        | send_outcome.accepted r =>
            if r < sent then
              some { buf := { buf with partialfront := buf.partialfront + r },
                     ret := (r : Int), offered := offered }
            else
              some (shrink_after
                { buf with deadfront := buf.deadfront + (r + buf.partialfront) }
                (bhead + sent + offset) sent offered)
      else
        some (shrink_after buf (bhead + sent + offset) sent none)

/-- The bytes a call handed to `send`, read from the memory of the buffer the
call started from. -/
def offered_bytes (buf : export_buffer) (o : Option (Nat × Nat)) : List Nat :=
  match o with
  | none => []
  | some (off, len) => region buf.mem off len

/-- A socket answers `send` with an `int` no larger than the length it was
handed. -/
def socket_ok (sock : Nat → send_outcome) : Prop :=
  ∀ n r, sock n = send_outcome.accepted r → r ≤ n ∧ r < 2 ^ 31

/-- The buffer invariant of the spec: `deadfront ≤ used length ≤ capacity`. -/
def buffer_inv (buf : export_buffer) : Prop :=
  buf.deadfront ≤ buf.used ∧ buf.used ≤ buf.alloced

/-- The records of lengths `lens` lie back to back from offset `pos` up to
`buftail`, each of positive length and each framed so that the scanning loop
computes its length. -/
def framed_from (fr : framing) (buf : export_buffer) : Nat → List Nat → Prop
  | pos, [] => pos = buf.used
  | pos, l :: ls => 0 < l ∧ pdulen_at fr buf pos = l ∧ framed_from fr buf (pos + l) ls

/-- The spec's whole-record budget: `l1 + ... + lk` for the largest `k` with
`l1 + ... + lk ≤ limit`. -/
def fits : List Nat → Nat → Nat
  | [], _ => 0
  | l :: ls, limit => if l ≤ limit then l + fits ls (limit - l) else 0

/-! ## Vocabulary of the statements about appending -/

/-- The buffer after `if (bufused == 0) { buf->partialfront = beensent; }`. -/
def with_hint (buf : export_buffer) (beensent : Nat) : export_buffer :=
  if buf.used = 0 then { buf with partialfront := beensent } else buf

/-- The buffer after `memcpy(buf->buftail, src, n); buf->buftail += n;` for a
source of exactly `n` bytes. -/
def push (buf : export_buffer) (src : List Nat) : export_buffer :=
  { buf with mem := memcpy buf.mem buf.used src src.length,
             used := buf.used + src.length }

/-- What an append that ran out of memory leaves behind, for a buffer `buf`
before the call and `b1` after it: `j` allocations succeeded before the one
that failed. -/
def failed_append_post (alloc : Nat → Bool) (buf : export_buffer)
    (beensent : Nat) (b1 : export_buffer) : Prop :=
  b1.partialfront = (if buf.used = 0 then beensent else buf.partialfront) ∧
  b1.hasnetcomm = buf.hasnetcomm ∧
  ∃ j, (∀ i, i < j → alloc i = true) ∧ alloc j = false ∧
    b1.alloced = buf.alloced + j * BUFFER_ALLOC_SIZE ∧
    (j = 0 → b1.used = buf.used ∧ b1.deadfront = buf.deadfront ∧
      (buf.deadfront = 0 → b1.mem = buf.mem)) ∧
    (0 < j → b1.deadfront = 0 ∧ live b1 = live buf)

/-- The pointers of a message point to as many bytes as its length fields
say, and the trailer is part of `msgbody->len`. -/
def msg_valid (msg : openli_exportmsg) : Prop :=
  (∀ h, msg.header = some h → h.length = msg.hdrlen) ∧
  (∀ l, msg.liid = some l → l.length = msg.liidlen) ∧
  msg.ipclen ≤ msg.msgbody_len ∧
  msg.msgbody_encoded.length = msg.msgbody_len - msg.ipclen ∧
  msg.ipcontents.length = msg.ipclen

/-- The bytes of the header as they go on the wire: none for a `NULL`
header. -/
def header_wire (msg : openli_exportmsg) : List Nat :=
  match msg.header with
  | some h => h
  | none => []

/-- The bytes of the identifier as they go on the wire: the two-byte length
and the identifier, or nothing at all for a `NULL` identifier. -/
def liid_wire (msg : openli_exportmsg) : List Nat :=
  match msg.liid with
  | some l => htons_bytes msg.liidlen ++ l
  | none => []

/-- The wire bytes of a message, in the order `append_message_to_buffer`
writes them. -/
def msg_wire (msg : openli_exportmsg) : List Nat :=
  header_wire msg ++ liid_wire msg ++ msg.msgbody_encoded ++ msg.ipcontents

/-- The bytes of the buffer that no `send` has accepted yet: the unsent bytes
behind the first `partialfront` ones. -/
def unsent (buf : export_buffer) : List Nat :=
  region buf.mem (buf.deadfront + buf.partialfront)
    (buf.used - (buf.deadfront + buf.partialfront))

/-! ## Call sequences -/

/-- One call on a buffer: an append of a record with its hint and the
outcomes of its allocations, or a transmit with its socket and byte limit. -/
inductive buffer_call where
  | append_pdu (alloc : Nat → Bool) (pdu : List Nat) (beensent : Nat)
  | transmit (sock : Nat → send_outcome) (bytelimit : Nat)

/-- A buffer together with the bytes the socket has accepted so far, in send
order, and the bytes of the records appended so far, in append order. -/
structure trace_state where
  buf : export_buffer
  wire : List Nat
  appended : List Nat

/-- The bytes the socket took from the range it was offered. -/
def accepted_bytes (buf : export_buffer) (sock : Nat → send_outcome)
    (o : Option (Nat × Nat)) : List Nat :=
  match o with
  | none => []
  | some (off, len) =>
      match sock len with
      | send_outcome.accepted r => region buf.mem off r
      | _ => []

/-- Runs a sequence of calls, recording what was appended and what the socket
accepted. -/
def run_calls (fr : framing) : trace_state → List buffer_call → Option trace_state
  | st, [] => some st
  | st, buffer_call.append_pdu alloc pdu beensent :: rest =>
      match append_etsipdu_to_buffer alloc st.buf pdu pdu.length beensent with
      | none => none
      | some res =>
          run_calls fr
            { buf := res.buf, wire := st.wire,
              appended := if res.oom then st.appended else st.appended ++ pdu } rest
  | st, buffer_call.transmit sock bytelimit :: rest =>
      match transmit_buffered_records fr st.buf sock bytelimit with
      | none => none
      | some res =>
          run_calls fr
            { buf := res.buf,
              wire := st.wire ++ accepted_bytes st.buf sock res.offered,
              appended := st.appended } rest

/-! ## Concrete inputs used in the examples -/

/-- A buffer of one growth increment that is full: every byte stored, nothing
sent yet. -/
def full_buf : export_buffer :=
  { mem := fun i => i % 256, used := 10485760, alloced := 10485760,
    partialfront := 0, deadfront := 0, hasnetcomm := true }

/-- A buffer that holds a 100-byte record followed by a 200-byte record, both
framed by the two-byte header of `demo_framing`. -/
def two_records_buf : export_buffer :=
  { mem := fun i => if i = 1 then 98 else if i = 101 then 198 else 0,
    used := 300, alloced := 10485760, partialfront := 0, deadfront := 0,
    hasnetcomm := true }

/-- A buffer of eleven growth increments that holds a two-byte record, already
sent in full by a partial send (`partialfront = 2`), and a three-byte record;
offsets 5 and 6 are slack behind `buftail`. -/
def skipped_send_buf : export_buffer :=
  { mem := fun i => if i = 3 then 1 else if i = 4 then 9 else if i = 5 then 77
                    else if i = 6 then 88 else 0,
    used := 5, alloced := 115343360, partialfront := 2, deadfront := 0,
    hasnetcomm := true }

/-- A socket that answers every `send` with `EAGAIN`. -/
def sock_eagain : Nat → send_outcome := fun _ => send_outcome.eagain

/-- A message with a two-byte header, no identifier, a three-byte body and a
one-byte trailer. -/
def msg_no_liid : openli_exportmsg :=
  { msgbody_encoded := [5, 6, 7], msgbody_len := 4, ipcontents := [8], ipclen := 1,
    header := some [0, 4], hdrlen := 2, liid := none, liidlen := 0 }

/-- A message with a two-byte header, a three-byte identifier, a three-byte
body and a one-byte trailer. -/
def msg_full : openli_exportmsg :=
  { msgbody_encoded := [5, 6, 7], msgbody_len := 4, ipcontents := [8], ipclen := 1,
    header := some [0, 9], hdrlen := 2, liid := some [65, 66, 67], liidlen := 3 }


/-- A framing with a two-byte header that holds nothing but the big-endian
body length; without the header the first byte of a record is its length. -/
def demo_framing : framing :=
  { hdrsize := 2, hdrsize_pos := by decide,
    bodylen := fun h => h.getD 0 0 * 256 + h.getD 1 0,
    etsili_pdu_length := fun bs => bs.getD 0 0 }

/-- An allocator that never fails. -/
def alloc_ok : Nat → Bool := fun _ => true

/-- An allocator that always fails. -/
def alloc_fail : Nat → Bool := fun _ => false

/-- A socket that accepts everything it is offered. -/
def sock_all : Nat → send_outcome := fun n => send_outcome.accepted n

/-- A socket that accepts at most `c` bytes per call. -/
def sock_upto (c : Nat) : Nat → send_outcome :=
  fun n => send_outcome.accepted (min c n)

/-! ## The exporter: `src/collector_export.c` -/

/-- The type `export_dest_t`, whose declaration is not among the sources.
`destid` is `details.destid`; `fd` and `failmsg` are the fields the exporter
reads and writes; `buffer` is the backlog buffer the spec gives every
destination, which no function of `collector_export.c` touches. -/
structure export_dest where
  destid : Nat
  fd : Int
  failmsg : Nat
  buffer : export_buffer

/-- The fields of `openli_exportmsg_t` that `collector_export.c` reads. -/
structure export_record where
  destid : Nat
  msgbody : List Nat
  msglen : Nat
  ipcontents : List Nat
  ipclen : Nat
  deriving DecidableEq

/-- The type `openli_export_recv_t`: an `OPENLI_EXPORT_ETSIREC` message with
its record or an `OPENLI_EXPORT_PACKET_FIN` message with its packet. -/
inductive openli_export_recv where
  | etsirec (toexport : export_record)
  | packet_fin (packet : Nat)
  deriving DecidableEq

/-- How a call of `connect_single_target` ends: `getaddrinfo` fails, `socket`
fails, `connect` fails, or the connection is made on descriptor `sockfd`. -/
inductive connect_outcome where
  | lookup_failed
  | socket_failed
  | connect_failed
  | connected (sockfd : Nat)

/-- Function `connect_single_target`: the destination with its `failmsg`
updated, and the returned descriptor (`-1` on failure). -/
def connect_single_target (out : connect_outcome) (dest : export_dest) :
    export_dest × Int :=
  match out with
  | connect_outcome.lookup_failed => (dest, -1)
  | connect_outcome.socket_failed => (dest, -1)
  | connect_outcome.connect_failed =>
      ((if dest.failmsg = 0 then { dest with failmsg := 1 } else dest), -1)
  | connect_outcome.connected sockfd => ({ dest with failmsg := 0 }, (sockfd : Int))

/-- What `connect_export_targets` leaves behind: the destinations, the
returned `success`, `exp->failed_conns`, and the positions in the list for
which a connection was attempted. -/
structure connect_result where
  dests : List export_dest
  success : Nat
  failed_conns : Nat
  attempts : List Nat

/-- The loop `while (n)` of `connect_export_targets` from the `i`-th node on.
`conn i` is the outcome of the connection attempt for the `i`-th
destination. -/
def connect_from (conn : Nat → connect_outcome) :
    Nat → List export_dest → Nat → Nat → connect_result
  | _, [], success, failed => { dests := [], success := success,
                                failed_conns := failed, attempts := [] }
  | i, d :: rest, success, failed =>
      if d.fd ≠ -1 then
        let r := connect_from conn (i + 1) rest (success + 1) failed
        { r with dests := d :: r.dests }
      else
        let c := connect_single_target (conn i) d
        let d1 : export_dest := { c.1 with fd := c.2 }
        if d1.fd ≠ -1 then
          let r := connect_from conn (i + 1) rest (success + 1) failed
          { r with dests := d1 :: r.dests, attempts := i :: r.attempts }
        else
          let r := connect_from conn (i + 1) rest success (failed + 1)
          { r with dests := d1 :: r.dests, attempts := i :: r.attempts }

/-- Function `connect_export_targets` on the destination list of the exporter:
`success` and `exp->failed_conns` start at 0. -/
def connect_export_targets (conn : Nat → connect_outcome)
    (dests : List export_dest) : connect_result :=
  connect_from conn 0 dests 0 0

/-- What `forward_message` does: the destination as it leaves it, the returned
`int`, and the `send` calls it made (descriptor and bytes handed over). -/
structure forward_result where
  dest : export_dest
  ret : Int
  sends : List (Int × List Nat)

/-- Function `forward_message`.  `snd 0` and `snd 1` are the results of its
first and second `send`. -/
def forward_message (snd : Nat → Int) (dest : export_dest) (msg : export_record) :
    forward_result :=
  let enclen := msg.msglen - msg.ipclen
  if dest.fd = -1 then
    { dest := dest, ret := 0, sends := [] }
  else
    let s1 := (dest.fd, msg.msgbody.take enclen)
    if snd 0 = -1 then
      { dest := dest, ret := -1, sends := [s1] }
    else if msg.ipclen > 0 then
      let s2 := (dest.fd, msg.ipcontents.take msg.ipclen)
      if snd 1 = -1 then
        { dest := dest, ret := -1, sends := [s1, s2] }
      else
        { dest := dest, ret := 0, sends := [s1, s2] }
    else
      { dest := dest, ret := 0, sends := [s1] }

/-- What the search for the destination of one record leaves behind: the
destinations, the `send` calls made, the descriptors closed, and the value of
`ret` when a destination matched (`none` when the search ended with
`n == NULL`). -/
structure route_result where
  dests : List export_dest
  sends : List (Int × List Nat)
  closed : List Int
  ret : Option Int

/-- The loop `n = exp->dests->head; while (n) { ... }` that
`check_epoll_fd` runs for an `OPENLI_EXPORT_ETSIREC` message. -/
def route_record (snd : Nat → Int) (msg : export_record) :
    List export_dest → route_result
  | [] => { dests := [], sends := [], closed := [], ret := none }
  | dest :: rest =>
      if dest.destid = msg.destid then
        let f := forward_message snd dest msg
        if f.ret = -1 then
          { dests := { f.dest with fd := -1 } :: rest, sends := f.sends,
            closed := [f.dest.fd], ret := some f.ret }
        else
          { dests := f.dest :: rest, sends := f.sends, closed := [],
            ret := some f.ret }
      else
        let r := route_record snd msg rest
        { r with dests := dest :: r.dests }

/-- The constant `MAX_READ_BATCH`. -/
def MAX_READ_BATCH : Nat := 25

/-- What the exporter acts on: the destinations, the messages waiting in each
producer queue, the `send` calls made, the descriptors closed and the packets
destroyed so far. -/
structure exporter_state where
  dests : List export_dest
  queues : Nat → List openli_export_recv
  sends : List (Int × List Nat)
  closed : List Int
  destroyed : List Nat

/-- What the draining loop leaves behind: the state, the messages still in the
queue, and the value of `ret`. -/
structure drain_result where
  st : exporter_state
  remaining : List openli_export_recv
  ret : Int

/-- The loop `while (readmsgs < MAX_READ_BATCH)` of `check_epoll_fd`, run on
the messages waiting in the queue of the event (the queue is taken as it is
when the call starts).  `snd j` gives the results of the `send` calls for
the `j`-th message taken in this call. -/
def drain_queue (snd : Nat → Nat → Int) :
    List openli_export_recv → Nat → Nat → exporter_state → Int → drain_result
  | [], _, _, st, ret => { st := st, remaining := [], ret := ret }
  | m :: rest, readmsgs, j, st, ret =>
      if readmsgs < MAX_READ_BATCH then
        match m with
        | openli_export_recv.etsirec toexport =>
            let r := route_record (snd j) toexport st.dests
            let st1 : exporter_state :=
              { st with dests := r.dests, sends := st.sends ++ r.sends,
                        closed := st.closed ++ r.closed }
            let ret1 : Int := match r.ret with
              | some v => v
              | none => -1
            drain_queue snd rest (readmsgs + 1) (j + 1) st1 ret1
        | openli_export_recv.packet_fin packet =>
            drain_queue snd rest readmsgs (j + 1)
              { st with destroyed := st.destroyed ++ [packet] } ret
      else { st := st, remaining := m :: rest, ret := ret }

/-- The constant `EXP_EPOLL_MQUEUE`. -/
def EXP_EPOLL_MQUEUE : Nat := 0

/-- The constant `EXP_EPOLL_TIMER`. -/
def EXP_EPOLL_TIMER : Nat := 1

/-- An event as `check_epoll_fd` sees it: the three flags of `ev->events` it
tests, and the `type` and the queue `q` of the `exporter_epoll_t` behind
`ev->data.ptr`. -/
structure epoll_event where
  epollerr : Bool
  epollhup : Bool
  epollin : Bool
  type : Nat
  q : Nat

/-- Function `check_epoll_fd`: the state it leaves and the value it
returns. -/
def check_epoll_fd (snd : Nat → Nat → Int) (st : exporter_state) (ev : epoll_event) :
    exporter_state × Int :=
  if ev.epollerr ∨ ev.epollhup ∨ ¬ ev.epollin then (st, 0)
  else
    let r : exporter_state × Int :=
      if ev.type = EXP_EPOLL_MQUEUE then
        let d := drain_queue snd (st.queues ev.q) 0 0 st 0
        ({ d.st with queues := Function.update d.st.queues ev.q d.remaining }, d.ret)
      else (st, 0)
    if ev.type = EXP_EPOLL_TIMER then
      if ev.epollin then (r.1, 1) else (r.1, -1)
    else r

/-- The loop `for (i = 0; i < nfds; i++)` of `exporter_thread_main`: the state
and the value of `timerexpired` when it ends.  `snd c` gives the results of
the `send` calls of the `c`-th call of `check_epoll_fd`; the number of calls
made so far is threaded through. -/
def check_events (snd : Nat → Nat → Nat → Int) :
    List epoll_event → Nat → exporter_state → Int → exporter_state × Int × Nat
  | [], c, st, timerexpired => (st, timerexpired, c)
  | ev :: rest, c, st, _ =>
      let r := check_epoll_fd (snd c) st ev
      if r.2 = -1 then (r.1, r.2, c + 1) else check_events snd rest (c + 1) r.1 r.2

/-- How far `exporter_thread_main` got on a finite run of `epoll_wait`
results: it returned `ret`, or it is still inside its event loop, waiting. -/
inductive main_status where
  | returned (ret : Int)
  | in_loop
  deriving DecidableEq

/-- The loop `while (timerexpired == 0)` of `exporter_thread_main` and what
follows it.  Each element of the list is one result of `epoll_wait`: `none`
for `nfds < 0`, otherwise the events reported.  `del_ok` tells whether the
final `epoll_ctl(EPOLL_CTL_DEL)` succeeds. -/
def event_loop (snd : Nat → Nat → Nat → Int) (del_ok : Bool) :
    List (Option (List epoll_event)) → Nat → exporter_state →
      exporter_state × main_status
  | [], _, st => (st, main_status.in_loop)
  | none :: _, _, st => (st, main_status.returned (-1))
  | some evs :: rest, c, st =>
      let r := check_events snd evs c st 0
      if r.2.1 = 0 then event_loop snd del_ok rest r.2.2 r.1
      else if del_ok then (r.1, main_status.returned 1)
      else (r.1, main_status.returned (-1))

/-- Function `exporter_thread_main`: the timer is added to the epoll set
(`add_ok`), the targets are connected, then the event loop runs. -/
def exporter_thread_main (conn : Nat → connect_outcome) (snd : Nat → Nat → Nat → Int)
    (add_ok del_ok : Bool) (waits : List (Option (List epoll_event)))
    (st : exporter_state) : exporter_state × main_status :=
  if add_ok then
    let c := connect_export_targets conn st.dests
    event_loop snd del_ok waits 0 { st with dests := c.dests }
  else (st, main_status.returned (-1))

/-! ## Concrete inputs for the exporter examples -/

/-- A destination with id 7 that is not connected; its backlog buffer is
freshly initialised. -/
def dest_down : export_dest :=
  { destid := 7, fd := -1, failmsg := 0, buffer := init_export_buffer true }

/-- A destination with id 8 connected on descriptor 5. -/
def dest_up : export_dest :=
  { destid := 8, fd := 5, failmsg := 0, buffer := init_export_buffer true }

/-- A record of three body bytes for destination `id`. -/
def record_for (id : Nat) : export_record :=
  { destid := id, msgbody := [1, 2, 3], msglen := 3, ipcontents := [], ipclen := 0 }

/-- A readable event of the message queue `q`. -/
def queue_event (q : Nat) : epoll_event :=
  { epollerr := false, epollhup := false, epollin := true,
    type := EXP_EPOLL_MQUEUE, q := q }

/-- An exporter with the destinations `dests` whose queue 0 holds `msgs`. -/
def exporter_with (dests : List export_dest) (msgs : List openli_export_recv) :
    exporter_state :=
  { dests := dests, queues := fun q => if q = 0 then msgs else [],
    sends := [], closed := [], destroyed := [] }

/-- Results of `send` that are all successful. -/
def snd_ok : Nat → Int := fun _ => 3

/-- Results of `send` that are all failures. -/
def snd_fail : Nat → Int := fun _ => -1

/-- A destination with id 9 connected on descriptor 6. -/
def dest_up2 : export_dest :=
  { destid := 9, fd := 6, failmsg := 0, buffer := init_export_buffer true }

/-- Results of `send` in which the `send` calls for the first message of a
batch fail and all others succeed. -/
def snd_first_fails : Nat → Nat → Nat → Int :=
  fun _ j _ => if j = 0 then -1 else 3

/-- Results of `send` in which the `send` calls for the second message of a
batch fail and all others succeed. -/
def snd_second_fails : Nat → Nat → Nat → Int :=
  fun _ j _ => if j = 1 then -1 else 3

/-- Whether a destination counts as connected: `fd != -1`. -/
def is_connected (d : export_dest) : Bool := decide (d.fd ≠ -1)

/-- Whether a queue message is an `OPENLI_EXPORT_ETSIREC` message. -/
def is_etsirec : openli_export_recv → Bool
  | openli_export_recv.etsirec _ => true
  | openli_export_recv.packet_fin _ => false

/-- Connection attempts that fail for the destination at position 1 and
succeed on descriptor 9 elsewhere. -/
def conn_demo : Nat → connect_outcome :=
  fun i => if i = 1 then connect_outcome.connect_failed else connect_outcome.connected 9

/-- A full buffer of one growth increment whose first 100 bytes have been
sent. -/
def full_dead_buf : export_buffer :=
  { full_buf with deadfront := 100 }

/-! ## Lemmas about memory regions -/

theorem region_length (m : Nat → Nat) (off n : Nat) : (region m off n).length = n := by
  simp [region]

theorem region_congr {m m2 : Nat → Nat} {off off2 n : Nat}
    (h : ∀ i, i < n → m (off + i) = m2 (off2 + i)) :
    region m off n = region m2 off2 n := by
  unfold region
  apply List.map_congr_left
  intro i hi
  exact h i (List.mem_range.mp hi)

theorem region_add (m : Nat → Nat) (off a b : Nat) :
    region m off (a + b) = region m off a ++ region m (off + a) b := by
  apply List.ext_getElem
  · simp [region_length]
  · intro i h1 h2
    simp only [region_length] at h1
    by_cases hi : i < a
    · rw [List.getElem_append_left (by simpa [region_length] using hi)]
      simp [region]
    · rw [List.getElem_append_right (by simpa [region_length] using hi)]
      simp only [region, List.getElem_map, List.getElem_range, List.length_map, List.length_range]
      congr 1
      omega

theorem region_memcpy_self (m : Nat → Nat) (dst : Nat) (src : List Nat) :
    region (memcpy m dst src src.length) dst src.length = src := by
  apply List.ext_getElem
  · simp [region_length]
  · intro i h1 h2
    simp [region, memcpy, h2]

theorem region_memcpy_below (m : Nat → Nat) (dst : Nat) (src : List Nat) (n off k : Nat)
    (h : off + k ≤ dst) : region (memcpy m dst src n) off k = region m off k := by
  apply region_congr
  intro i hi
  simp only [memcpy]
  rw [if_neg]
  omega

theorem region_memmove (m : Nat → Nat) (src n : Nat) :
    region (memmove m 0 src n) 0 n = region m src n := by
  apply region_congr
  intro i hi
  simp only [memmove]
  rw [if_pos (by omega)]
  congr 1
  omega

/-! ### `extend_buffer` and the growth loop -/

theorem BUFFER_ALLOC_SIZE_pos : 0 < BUFFER_ALLOC_SIZE := by decide

theorem extend_buffer_fail (buf : export_buffer) :
    extend_buffer false buf =
      ({ buf with mem := if buf.deadfront > 0 then
            memmove buf.mem 0 buf.deadfront (buf.used - buf.deadfront) else buf.mem }, 0) := by
  simp [extend_buffer]

theorem extend_buffer_ok_fields (buf : export_buffer) :
    (extend_buffer true buf).1.used = buf.used - buf.deadfront ∧
    (extend_buffer true buf).1.deadfront = 0 ∧
    (extend_buffer true buf).1.alloced = buf.alloced + BUFFER_ALLOC_SIZE ∧
    (extend_buffer true buf).1.partialfront = buf.partialfront ∧
    (extend_buffer true buf).1.hasnetcomm = buf.hasnetcomm ∧
    (extend_buffer true buf).2 =
      buf.alloced + BUFFER_ALLOC_SIZE - (buf.used - buf.deadfront) := by
  simp [extend_buffer]

theorem extend_buffer_ok_live (buf : export_buffer) :
    live (extend_buffer true buf).1 = live buf := by
  unfold live
  simp only [extend_buffer, if_true, Nat.sub_zero]
  by_cases hd : buf.deadfront > 0
  · rw [if_pos hd]
    exact region_memmove _ _ _
  · rw [if_neg hd]
    have : buf.deadfront = 0 := by omega
    rw [this]

theorem extend_buffer_ok_inv (buf : export_buffer) (h : buffer_inv buf) :
    buffer_inv (extend_buffer true buf).1 ∧
    (extend_buffer true buf).2 =
      (extend_buffer true buf).1.alloced - (extend_buffer true buf).1.used ∧
    (extend_buffer true buf).2 ≠ 0 ∧
    buf.alloced - buf.used + 1 ≤ (extend_buffer true buf).2 := by
  obtain ⟨h1, h2⟩ := h
  have hB := BUFFER_ALLOC_SIZE_pos
  simp only [buffer_inv, extend_buffer, if_true]
  refine ⟨⟨by omega, by omega⟩, trivial, by omega, by omega⟩

theorem extend_loop_total (alloc : Nat → Bool) (need : Nat) :
    ∀ (fuel k : Nat) (buf : export_buffer) (sl : Nat), buffer_inv buf →
      sl = buf.alloced - buf.used → need ≤ sl + fuel →
      ∃ r, extend_loop alloc need fuel k buf sl = some r := by
  intro fuel
  induction fuel with
  | zero =>
      intro k buf sl _ _ hn
      refine ⟨(buf, false), ?_⟩
      simp only [extend_loop]
      rw [if_neg (by omega)]
  | succ fuel ih =>
      intro k buf sl hinv hsl hn
      simp only [extend_loop]
      by_cases hlt : sl < need
      · rw [if_pos hlt]
        cases hk : alloc k with
        | false =>
            refine ⟨((extend_buffer false buf).1, true), ?_⟩
            rw [if_pos (by simp [extend_buffer])]
        | true =>
            obtain ⟨hi, he, hne, hge⟩ := extend_buffer_ok_inv buf hinv
            rw [if_neg hne]
            exact ih (k + 1) _ _ hi he (by omega)
      · rw [if_neg hlt]
        exact ⟨_, rfl⟩

theorem extend_loop_done (alloc : Nat → Bool) (need : Nat) :
    ∀ (fuel k : Nat) (buf : export_buffer) (sl : Nat) (b1 : export_buffer),
      buffer_inv buf → sl = buf.alloced - buf.used →
      extend_loop alloc need fuel k buf sl = some (b1, false) →
      buffer_inv b1 ∧ need ≤ b1.alloced - b1.used ∧ live b1 = live buf ∧
      b1.partialfront = buf.partialfront ∧ b1.hasnetcomm = buf.hasnetcomm ∧
      b1.used - b1.deadfront = buf.used - buf.deadfront ∧
      buf.alloced ≤ b1.alloced := by
  intro fuel
  induction fuel with
  | zero =>
      intro k buf sl b1 hinv hsl h
      simp only [extend_loop] at h
      by_cases hlt : sl < need
      · rw [if_pos hlt] at h
        exact absurd h (by simp)
      · rw [if_neg hlt] at h
        simp only [Option.some.injEq, Prod.mk.injEq, and_true] at h
        subst h
        exact ⟨hinv, by omega, rfl, rfl, rfl, rfl, le_refl _⟩
  | succ fuel ih =>
      intro k buf sl b1 hinv hsl h
      simp only [extend_loop] at h
      by_cases hlt : sl < need
      · rw [if_pos hlt] at h
        cases hk : alloc k with
        | false =>
            rw [hk] at h
            rw [if_pos (by simp [extend_buffer])] at h
            simp at h
        | true =>
            rw [hk] at h
            obtain ⟨hi, he, hne, hge⟩ := extend_buffer_ok_inv buf hinv
            rw [if_neg hne] at h
            obtain ⟨g1, g2, g3, g4, g5, g6, g7⟩ := ih (k + 1) _ _ b1 hi he h
            obtain ⟨f1, f2, f3, f4, f5, f6⟩ := extend_buffer_ok_fields buf
            refine ⟨g1, g2, ?_, ?_, ?_, ?_, ?_⟩
            · rw [g3, extend_buffer_ok_live]
            · rw [g4, f4]
            · rw [g5, f5]
            · rw [g6, f1, f2]; omega
            · rw [f3] at g7; omega
      · rw [if_neg hlt] at h
        simp only [Option.some.injEq, Prod.mk.injEq, and_true] at h
        subst h
        exact ⟨hinv, by omega, rfl, rfl, rfl, rfl, le_refl _⟩

theorem extend_loop_oom (alloc : Nat → Bool) (need : Nat) :
    ∀ (fuel k : Nat) (buf : export_buffer) (sl : Nat) (b1 : export_buffer),
      buffer_inv buf → sl = buf.alloced - buf.used →
      extend_loop alloc need fuel k buf sl = some (b1, true) →
      buffer_inv b1 ∧ b1.partialfront = buf.partialfront ∧
      b1.hasnetcomm = buf.hasnetcomm ∧
      ∃ j, (∀ i, i < j → alloc (k + i) = true) ∧ alloc (k + j) = false ∧
        b1.alloced = buf.alloced + j * BUFFER_ALLOC_SIZE ∧
        (j = 0 → b1 = (extend_buffer false buf).1) ∧
        (0 < j → b1.deadfront = 0 ∧ live b1 = live buf ∧
          b1.used = buf.used - buf.deadfront) := by
  intro fuel
  induction fuel with
  | zero =>
      intro k buf sl b1 hinv hsl h
      simp only [extend_loop] at h
      by_cases hlt : sl < need
      · rw [if_pos hlt] at h
        exact absurd h (by simp)
      · rw [if_neg hlt] at h
        simp at h
  | succ fuel ih =>
      intro k buf sl b1 hinv hsl h
      simp only [extend_loop] at h
      by_cases hlt : sl < need
      · rw [if_pos hlt] at h
        cases hk : alloc k with
        | false =>
            rw [hk] at h
            rw [if_pos (by simp [extend_buffer])] at h
            simp only [Option.some.injEq, Prod.mk.injEq, and_true] at h
            subst h
            refine ⟨?_, ?_, ?_, 0, ?_, ?_, ?_, ?_, ?_⟩
            · simpa [buffer_inv, extend_buffer] using hinv
            · simp [extend_buffer]
            · simp [extend_buffer]
            · intro i hi; omega
            · simpa using hk
            · simp [extend_buffer]
            · intro _; rfl
            · intro h0; omega
        | true =>
            rw [hk] at h
            obtain ⟨hi, he, hne, hge⟩ := extend_buffer_ok_inv buf hinv
            rw [if_neg hne] at h
            obtain ⟨g1, g2, g3, j, g4, g5, g6, g7, g8⟩ := ih (k + 1) _ _ b1 hi he h
            obtain ⟨f1, f2, f3, f4, f5, f6⟩ := extend_buffer_ok_fields buf
            refine ⟨g1, by rw [g2, f4], by rw [g3, f5], j + 1, ?_, ?_, ?_, ?_, ?_⟩
            · intro i hi2
              cases i with
              | zero => simpa using hk
              | succ i =>
                  have := g4 i (by omega)
                  rw [← this]; congr 1; omega
            · rw [← g5]; congr 1; omega
            · rw [g6, f3]; ring
            · intro h0; omega
            · intro _
              by_cases hj : j = 0
              · have hb := g7 hj
                have hb1 : b1 = (extend_buffer true buf).1 := by
                  rw [hb]
                  simp only [extend_buffer, if_true, Bool.false_eq_true, if_false,
                    gt_iff_lt, lt_self_iff_false]
                rw [hb1]
                exact ⟨f2, extend_buffer_ok_live buf, f1⟩
              · obtain ⟨e1, e2, e3⟩ := g8 (by omega)
                refine ⟨e1, ?_, ?_⟩
                · rw [e2, extend_buffer_ok_live]
                · rw [e3, f1, f2]; omega
      · rw [if_neg hlt] at h
        simp at h

/-! ### The append functions -/

theorem with_hint_fields (buf : export_buffer) (beensent : Nat) :
    (with_hint buf beensent).mem = buf.mem ∧
    (with_hint buf beensent).used = buf.used ∧
    (with_hint buf beensent).alloced = buf.alloced ∧
    (with_hint buf beensent).deadfront = buf.deadfront ∧
    (with_hint buf beensent).hasnetcomm = buf.hasnetcomm ∧
    (with_hint buf beensent).partialfront =
      (if buf.used = 0 then beensent else buf.partialfront) := by
  unfold with_hint
  by_cases h : buf.used = 0 <;> simp [h]

theorem with_hint_inv (buf : export_buffer) (beensent : Nat) (h : buffer_inv buf) :
    buffer_inv (with_hint buf beensent) := by
  obtain ⟨_, h2, h3, h4, _, _⟩ := with_hint_fields buf beensent
  unfold buffer_inv at *
  rw [h2, h3, h4]
  exact h

theorem with_hint_live (buf : export_buffer) (beensent : Nat) :
    live (with_hint buf beensent) = live buf := by
  obtain ⟨h1, h2, _, h4, _, _⟩ := with_hint_fields buf beensent
  unfold live
  rw [h1, h2, h4]

theorem append_etsipdu_eq (alloc : Nat → Bool) (buf : export_buffer)
    (pdustart : List Nat) (pdulen beensent : Nat) :
    append_etsipdu_to_buffer alloc buf pdustart pdulen beensent =
      match extend_loop alloc pdulen (pdulen + 1) 0 (with_hint buf beensent)
          (buf.alloced - buf.used) with
      | none => none
      | some (buf1, true) => some { buf := buf1, ret := 0, oom := true }
      | some (buf1, false) =>
          some { buf := { buf1 with mem := memcpy buf1.mem buf1.used pdustart pdulen,
                                    used := buf1.used + pdulen },
                 ret := buf1.used + pdulen, oom := false } := rfl

theorem loop_from_hint_total (alloc : Nat → Bool) (need : Nat) (buf : export_buffer)
    (beensent : Nat) (hinv : buffer_inv buf) :
    ∃ r, extend_loop alloc need (need + 1) 0 (with_hint buf beensent)
      (buf.alloced - buf.used) = some r := by
  obtain ⟨_, h2, h3, _, _, _⟩ := with_hint_fields buf beensent
  exact extend_loop_total alloc need (need + 1) 0 _ _ (with_hint_inv buf beensent hinv)
    (by rw [h2, h3]) (by omega)

theorem loop_from_hint_oom (alloc : Nat → Bool) (need : Nat) (buf : export_buffer)
    (beensent : Nat) (hinv : buffer_inv buf) (b1 : export_buffer)
    (h : extend_loop alloc need (need + 1) 0 (with_hint buf beensent)
      (buf.alloced - buf.used) = some (b1, true)) :
    failed_append_post alloc buf beensent b1 ∧ buffer_inv b1 := by
  obtain ⟨h1, h2, h3, h4, h5, h6⟩ := with_hint_fields buf beensent
  obtain ⟨g1, g2, g3, j, g4, g5, g6, g7, g8⟩ :=
    extend_loop_oom alloc need (need + 1) 0 _ _ b1 (with_hint_inv buf beensent hinv)
      (by rw [h2, h3]) h
  refine ⟨⟨by rw [g2, h6], by rw [g3, h5], j, ?_, ?_, ?_, ?_, ?_⟩, g1⟩
  · intro i hi; simpa using g4 i hi
  · simpa using g5
  · rw [g6, h3]
  · intro hj
    have hb := g7 hj
    rw [hb, extend_buffer_fail]
    refine ⟨h2, h4, ?_⟩
    intro hd
    simp only [h4, hd, gt_iff_lt, lt_self_iff_false, if_false, h1]
  · intro hj
    obtain ⟨e1, e2, _⟩ := g8 hj
    exact ⟨e1, by rw [e2, with_hint_live]⟩

theorem loop_from_hint_first_fail (alloc : Nat → Bool) (need : Nat) (buf : export_buffer)
    (beensent : Nat) (hneed : buf.alloced - buf.used < need) (hfail : alloc 0 = false) :
    extend_loop alloc need (need + 1) 0 (with_hint buf beensent)
      (buf.alloced - buf.used) =
      some ((extend_buffer false (with_hint buf beensent)).1, true) := by
  simp only [extend_loop]
  rw [if_pos hneed, hfail, if_pos (by simp [extend_buffer])]

theorem append_message_eq (alloc : Nat → Bool) (buf : export_buffer)
    (msg : openli_exportmsg) (beensent : Nat) :
    append_message_to_buffer alloc buf msg beensent =
      match extend_loop alloc (msg.msgbody_len + msg.hdrlen + msg.liidlen + 2)
          (msg.msgbody_len + msg.hdrlen + msg.liidlen + 2 + 1) 0 (with_hint buf beensent)
          (buf.alloced - buf.used) with
      | none => none
      | some (buf1, true) => some { buf := buf1, ret := 0, oom := true }
      | some (buf1, false) =>
          some { buf := write_message buf1 msg, ret := (write_message buf1 msg).used,
                 oom := false } := rfl

theorem export_buffer_eq {a b : export_buffer} (h1 : a.mem = b.mem) (h2 : a.used = b.used)
    (h3 : a.alloced = b.alloced) (h4 : a.partialfront = b.partialfront)
    (h5 : a.deadfront = b.deadfront) (h6 : a.hasnetcomm = b.hasnetcomm) : a = b := by
  cases a; cases b
  simp only [export_buffer.mk.injEq]
  exact ⟨h1, h2, h3, h4, h5, h6⟩

theorem push_nil (buf : export_buffer) : push buf [] = buf := by
  apply export_buffer_eq <;> try rfl
  funext i
  simp [push, memcpy]

theorem push_live (buf : export_buffer) (src : List Nat) (hd : buf.deadfront ≤ buf.used) :
    live (push buf src) = live buf ++ src := by
  unfold live push
  simp only
  have e : buf.used + src.length - buf.deadfront = (buf.used - buf.deadfront) + src.length := by
    omega
  rw [e, region_add]
  congr 1
  · exact region_memcpy_below _ _ _ _ _ _ (by omega)
  · have e2 : buf.deadfront + (buf.used - buf.deadfront) = buf.used := by omega
    rw [e2]
    exact region_memcpy_self _ _ _

theorem push_eq_of_len (b : export_buffer) (src : List Nat) (n : Nat)
    (h : src.length = n) :
    ({ b with mem := memcpy b.mem b.used src n, used := b.used + n } : export_buffer) =
      push b src := by
  subst h; rfl

theorem write_message_fields (buf1 : export_buffer) (msg : openli_exportmsg) :
    (write_message buf1 msg).alloced = buf1.alloced ∧
    (write_message buf1 msg).deadfront = buf1.deadfront ∧
    (write_message buf1 msg).partialfront = buf1.partialfront ∧
    (write_message buf1 msg).hasnetcomm = buf1.hasnetcomm ∧
    (write_message buf1 msg).used =
      buf1.used + (if msg.header.isSome then msg.hdrlen else 0) +
        (if msg.liid.isSome then msg.liidlen + 2 else 0) +
        (msg.msgbody_len - msg.ipclen) + msg.ipclen := by
  unfold write_message write_ipcontents write_body write_liid write_header
  cases hh : msg.header <;> cases hl : msg.liid <;> by_cases hi : msg.ipclen > 0 <;>
    simp [hi] <;> omega

theorem write_header_eq (b : export_buffer) (msg : openli_exportmsg) (hv : msg_valid msg) :
    write_header b msg = push b (header_wire msg) := by
  unfold write_header header_wire
  cases hh : msg.header with
  | none => simp only; rw [push_nil]
  | some h => exact push_eq_of_len b h _ (hv.1 h hh)

theorem write_liid_eq (b2 : export_buffer) (msg : openli_exportmsg) (hv : msg_valid msg) :
    write_liid b2 msg = push b2 (liid_wire msg) := by
  unfold write_liid liid_wire
  cases hl : msg.liid with
  | none => simp only; rw [push_nil]
  | some l =>
      simp only
      rw [← hv.2.1 l hl]
      apply export_buffer_eq <;> try rfl
      funext i
      simp only [push, memcpy, htons_bytes, List.length_append, List.length_cons,
        List.length_nil]
      by_cases c1 : b2.used + 2 ≤ i ∧ i < b2.used + 2 + l.length
      · rw [if_pos c1, if_pos (by omega)]
        have : i - b2.used = (i - (b2.used + 2)) + 2 := by omega
        rw [this]
        simp [List.getD_eq_getElem?_getD]
      · rw [if_neg c1]
        by_cases c2 : b2.used ≤ i ∧ i < b2.used + 2
        · rw [if_pos c2, if_pos (by omega)]
          have : i - b2.used = 0 ∨ i - b2.used = 1 := by omega
          rcases this with e | e <;> simp [e]
        · rw [if_neg c2, if_neg (by omega)]

theorem write_body_eq (b : export_buffer) (msg : openli_exportmsg) (hv : msg_valid msg) :
    write_body b msg = push b msg.msgbody_encoded :=
  push_eq_of_len b _ _ hv.2.2.2.1

theorem write_ipcontents_eq (b : export_buffer) (msg : openli_exportmsg)
    (hv : msg_valid msg) : write_ipcontents b msg = push b msg.ipcontents := by
  unfold write_ipcontents
  by_cases hi : msg.ipclen > 0
  · rw [if_pos hi]
    exact push_eq_of_len b _ _ hv.2.2.2.2
  · rw [if_neg hi]
    have : msg.ipcontents = [] := by
      apply List.eq_nil_of_length_eq_zero
      have := hv.2.2.2.2
      omega
    rw [this, push_nil]

theorem write_message_eq_push (buf1 : export_buffer) (msg : openli_exportmsg)
    (hv : msg_valid msg) :
    write_message buf1 msg =
      push (push (push (push buf1 (header_wire msg)) (liid_wire msg))
        msg.msgbody_encoded) msg.ipcontents := by
  unfold write_message
  rw [write_header_eq _ _ hv, write_liid_eq _ _ hv, write_body_eq _ _ hv,
    write_ipcontents_eq _ _ hv]

theorem push_fields (buf : export_buffer) (src : List Nat) :
    (push buf src).used = buf.used + src.length ∧
    (push buf src).deadfront = buf.deadfront ∧
    (push buf src).alloced = buf.alloced ∧
    (push buf src).partialfront = buf.partialfront := ⟨rfl, rfl, rfl, rfl⟩

theorem oom_needs_failure (alloc : Nat → Bool) (buf : export_buffer) (beensent : Nat)
    (b1 : export_buffer) (h : failed_append_post alloc buf beensent b1)
    (hall : ∀ k, alloc k = true) : False := by
  obtain ⟨_, _, j, _, hj, _⟩ := h
  rw [hall j] at hj
  exact absurd hj (by simp)

/-! ### The scanning loop -/

theorem pdulen_at_pos_of_netcomm (fr : framing) (buf : export_buffer) (pos : Nat)
    (h : buf.hasnetcomm = true) : 0 < pdulen_at fr buf pos := by
  unfold pdulen_at
  rw [if_pos h]
  have := fr.hdrsize_pos
  omega

theorem scan_records_total (fr : framing) (buf : export_buffer) (bytelimit : Nat) :
    ∀ (fuel sent : Nat), buf.used - (buf.deadfront + sent) ≤ fuel →
      ∃ S, scan_records fr buf bytelimit fuel sent = some S := by
  intro fuel
  induction fuel with
  | zero =>
      intro sent h
      refine ⟨sent, ?_⟩
      simp only [scan_records]
      rw [if_neg (by omega)]
  | succ fuel ih =>
      intro sent h
      simp only [scan_records]
      by_cases c1 : buf.deadfront + sent < buf.used
      · rw [if_pos c1]
        by_cases c2 : buf.hasnetcomm = false ∧ pdulen_at fr buf (buf.deadfront + sent) = 0
        · rw [if_pos c2]; exact ⟨_, rfl⟩
        · rw [if_neg c2]
          by_cases c3 : sent + pdulen_at fr buf (buf.deadfront + sent) > bytelimit
          · rw [if_pos c3]; exact ⟨_, rfl⟩
          · rw [if_neg c3]
            apply ih
            have hp : 0 < pdulen_at fr buf (buf.deadfront + sent) := by
              cases hn : buf.hasnetcomm with
              | true => exact pdulen_at_pos_of_netcomm fr buf _ hn
              | false =>
                  rcases Nat.eq_zero_or_pos (pdulen_at fr buf (buf.deadfront + sent)) with e | e
                  · exact absurd ⟨hn, e⟩ c2
                  · exact e
            omega
      · rw [if_neg c1]; exact ⟨_, rfl⟩

theorem framed_from_sum (fr : framing) (buf : export_buffer) :
    ∀ (lens : List Nat) (pos : Nat), framed_from fr buf pos lens →
      pos + lens.sum = buf.used ∧ lens.length ≤ lens.sum := by
  intro lens
  induction lens with
  | nil =>
      intro pos h
      simp only [framed_from] at h
      simp [h]
  | cons l ls ih =>
      intro pos h
      simp only [framed_from] at h
      obtain ⟨h1, _, h3⟩ := h
      obtain ⟨i1, i2⟩ := ih (pos + l) h3
      simp only [List.sum_cons, List.length_cons]
      omega

theorem fits_le (lens : List Nat) : ∀ limit, fits lens limit ≤ limit ∧ fits lens limit ≤ lens.sum := by
  induction lens with
  | nil => intro limit; simp [fits]
  | cons l ls ih =>
      intro limit
      simp only [fits, List.sum_cons]
      by_cases c : l ≤ limit
      · rw [if_pos c]
        obtain ⟨i1, i2⟩ := ih (limit - l)
        omega
      · rw [if_neg c]
        omega

theorem scan_records_framed (fr : framing) (buf : export_buffer) (bytelimit : Nat) :
    ∀ (lens : List Nat) (fuel sent : Nat),
      framed_from fr buf (buf.deadfront + sent) lens → lens.length ≤ fuel →
      sent ≤ bytelimit →
      scan_records fr buf bytelimit fuel sent = some (sent + fits lens (bytelimit - sent)) := by
  intro lens
  induction lens with
  | nil =>
      intro fuel sent h _ _
      simp only [framed_from] at h
      cases fuel with
      | zero => simp only [scan_records]; rw [if_neg (by omega)]; simp [fits]
      | succ fuel => simp only [scan_records]; rw [if_neg (by omega)]; simp [fits]
  | cons l ls ih =>
      intro fuel sent h hf hs
      simp only [framed_from] at h
      obtain ⟨h1, h2, h3⟩ := h
      obtain ⟨i1, _⟩ := framed_from_sum fr buf ls _ h3
      cases fuel with
      | zero => simp at hf
      | succ fuel =>
          simp only [scan_records]
          rw [if_pos (by omega), h2, if_neg (by omega)]
          simp only [fits]
          by_cases c : l ≤ bytelimit - sent
          · rw [if_neg (by omega), if_pos c]
            have hstep := ih fuel (sent + l) (by rw [← Nat.add_assoc]; exact h3)
              (by simpa using hf) (by omega)
            rw [hstep]
            congr 1
            have : bytelimit - (sent + l) = bytelimit - sent - l := by omega
            rw [this]
            omega
          · rw [if_pos (by omega), if_neg c]
            rfl

theorem scan_records_set_partialfront (fr : framing) (buf : export_buffer)
    (bytelimit p : Nat) : ∀ (fuel sent : Nat),
      scan_records fr { buf with partialfront := p } bytelimit fuel sent =
        scan_records fr buf bytelimit fuel sent := by
  intro fuel
  induction fuel with
  | zero => intro sent; rfl
  | succ fuel ih =>
      intro sent
      simp only [scan_records]
      rw [ih]
      rfl

/-! ### `transmit_buffered_records` -/

theorem scan_from_start (fr : framing) (buf : export_buffer) (bytelimit : Nat) :
    ∃ S, scan_records fr buf bytelimit (buf.used - buf.deadfront + 1) 0 = some S :=
  scan_records_total fr buf bytelimit _ 0 (by omega)

theorem shrink_after_out (buf : export_buffer) (src sent : Nat) (o : Option (Nat × Nat)) :
    (shrink_after buf src sent o).offered = o ∧
    (shrink_after buf src sent o).ret = (sent : Int) := by
  unfold shrink_after
  simp only
  split
  · exact ⟨rfl, rfl⟩
  · split
    · exact ⟨rfl, rfl⟩
    · exact ⟨rfl, rfl⟩

theorem transmit_eq (fr : framing) (buf : export_buffer) (sock : Nat → send_outcome)
    (bytelimit S : Nat)
    (h : scan_records fr buf bytelimit (buf.used - buf.deadfront + 1) 0 = some S) :
    transmit_buffered_records fr buf sock bytelimit =
      if sub_u64 S buf.partialfront ≠ 0 then
        match sock (sub_u64 S buf.partialfront) with
        | send_outcome.eagain =>
            some { buf := buf, ret := 0,
                   offered := some (buf.deadfront + buf.partialfront,
                     sub_u64 S buf.partialfront) }
        | send_outcome.failed =>
            some { buf := buf, ret := -1,
                   offered := some (buf.deadfront + buf.partialfront,
                     sub_u64 S buf.partialfront) }
        | send_outcome.accepted r =>
            if r < sub_u64 S buf.partialfront then
              some { buf := { buf with partialfront := buf.partialfront + r },
                     ret := (r : Int),
                     offered := some (buf.deadfront + buf.partialfront,
                       sub_u64 S buf.partialfront) }
            else
              some (shrink_after
                { buf with deadfront := buf.deadfront + (r + buf.partialfront) }
                (buf.deadfront + sub_u64 S buf.partialfront + buf.partialfront)
                (sub_u64 S buf.partialfront)
                (some (buf.deadfront + buf.partialfront, sub_u64 S buf.partialfront)))
      else
        some (shrink_after buf
          (buf.deadfront + sub_u64 S buf.partialfront + buf.partialfront)
          (sub_u64 S buf.partialfront) none) := by
  unfold transmit_buffered_records
  simp only [h]

/-- What a call hands to `send` does not depend on the socket. -/
theorem transmit_offered (fr : framing) (buf : export_buffer) (sock : Nat → send_outcome)
    (bytelimit S : Nat)
    (h : scan_records fr buf bytelimit (buf.used - buf.deadfront + 1) 0 = some S) :
    ∃ res, transmit_buffered_records fr buf sock bytelimit = some res ∧
      res.offered = (if sub_u64 S buf.partialfront ≠ 0 then
        some (buf.deadfront + buf.partialfront, sub_u64 S buf.partialfront) else none) := by
  rw [transmit_eq fr buf sock bytelimit S h]
  by_cases c : sub_u64 S buf.partialfront ≠ 0
  · rw [if_pos c, if_pos c]
    cases hs : sock (sub_u64 S buf.partialfront) with
    | eagain => exact ⟨_, rfl, rfl⟩
    | failed => exact ⟨_, rfl, rfl⟩
    | accepted r =>
        simp only
        by_cases c2 : r < sub_u64 S buf.partialfront
        · rw [if_pos c2]; exact ⟨_, rfl, rfl⟩
        · rw [if_neg c2]; exact ⟨_, rfl, (shrink_after_out _ _ _ _).1⟩
  · rw [if_neg c, if_neg c]
    exact ⟨_, rfl, (shrink_after_out _ _ _ _).1⟩

theorem sub_u64_resume (S pf r : Nat) (h : r < sub_u64 S pf) :
    sub_u64 S (pf + r) = sub_u64 S pf - r := by
  unfold sub_u64 at *
  by_cases c : pf ≤ S
  · rw [if_pos c] at h
    rw [if_pos c, if_pos (by omega)]
    omega
  · rw [if_neg c] at h
    rw [if_neg c, if_neg (by omega)]
    omega

theorem shrink_after_inv (buf : export_buffer) (src sent : Nat) (o : Option (Nat × Nat))
    (h : buffer_inv buf) : buffer_inv (shrink_after buf src sent o).buf := by
  obtain ⟨h1, h2⟩ := h
  unfold shrink_after
  simp only
  split
  · simp only [buffer_inv, BUFFER_ALLOC_SIZE]
    refine ⟨Nat.zero_le _, ?_⟩
    omega
  · split
    · simp only [buffer_inv]
      omega
    · exact ⟨h1, h2⟩

theorem sub_u64_wrap_large (S pf : Nat) (h : S < pf) (hpf : pf < 2 ^ 32) :
    2 ^ 31 ≤ sub_u64 S pf := by
  unfold sub_u64
  rw [if_neg (by omega)]
  omega

/-! ## The claims -/

/-- C4 (as stated, refuted): a failed allocation does not always leave the
buffer as it was.  On a freshly initialised buffer the hint has already been
stored in `partialfront` when the allocation fails; and when the first
allocation of a call succeeds and the second fails, the capacity has grown. -/
theorem failed_append_changes_buffer :
    (∃ res, append_etsipdu_to_buffer alloc_fail (init_export_buffer true) [7] 1 3 = some res ∧
      res.oom = true ∧ res.ret = 0 ∧
      res.buf.partialfront ≠ (init_export_buffer true).partialfront) ∧
    (∃ res, append_etsipdu_to_buffer (fun k => decide (k = 0)) (init_export_buffer true)
        (List.replicate 10485761 7) 10485761 0 = some res ∧
      res.oom = true ∧ res.ret = 0 ∧
      res.buf.alloced ≠ (init_export_buffer true).alloced) := by
  constructor
  · exact ⟨_, rfl, by decide⟩
  · exact ⟨_, rfl, by decide⟩

/-- C4 (amended): when an allocation inside `extend_buffer` fails, both append
functions return 0; `partialfront` is the hint if the buffer held no bytes at
all and is unchanged otherwise; the capacity has grown by one increment for
each allocation of the call that succeeded before the failing one; if the
failing allocation is the first of the call, used length and `deadfront` are
unchanged, and with `deadfront = 0` every byte of the memory is unchanged; if
it is a later one, the buffer has been compacted and its unsent bytes are
those from before the call.  An append that needs space and whose first
allocation fails does run out of memory. -/
theorem append_alloc_failure (alloc : Nat → Bool) (buf : export_buffer)
    (hinv : buffer_inv buf) (pdustart : List Nat) (pdulen beensent : Nat)
    (msg : openli_exportmsg) :
    (∃ res, append_etsipdu_to_buffer alloc buf pdustart pdulen beensent = some res ∧
      (res.oom = true → res.ret = 0 ∧ failed_append_post alloc buf beensent res.buf) ∧
      (buf.alloced - buf.used < pdulen → alloc 0 = false → res.oom = true)) ∧
    (∃ res, append_message_to_buffer alloc buf msg beensent = some res ∧
      (res.oom = true → res.ret = 0 ∧ failed_append_post alloc buf beensent res.buf) ∧
      (buf.alloced - buf.used < msg.msgbody_len + msg.hdrlen + msg.liidlen + 2 →
        alloc 0 = false → res.oom = true)) := by
  constructor
  · obtain ⟨⟨b1, oom⟩, h⟩ := loop_from_hint_total alloc pdulen buf beensent hinv
    rw [append_etsipdu_eq]
    cases oom with
    | true =>
        rw [h]
        exact ⟨_, rfl, fun _ => ⟨rfl, (loop_from_hint_oom alloc pdulen buf beensent hinv b1 h).1⟩,
          fun _ _ => rfl⟩
    | false =>
        rw [h]
        refine ⟨_, rfl, fun hc => absurd hc (by simp), ?_⟩
        intro hneed hfail
        rw [loop_from_hint_first_fail alloc pdulen buf beensent hneed hfail] at h
        simp at h
  · obtain ⟨⟨b1, oom⟩, h⟩ := loop_from_hint_total alloc
      (msg.msgbody_len + msg.hdrlen + msg.liidlen + 2) buf beensent hinv
    rw [append_message_eq]
    cases oom with
    | true =>
        rw [h]
        exact ⟨_, rfl, fun _ => ⟨rfl, (loop_from_hint_oom alloc _ buf beensent hinv b1 h).1⟩,
          fun _ _ => rfl⟩
    | false =>
        rw [h]
        refine ⟨_, rfl, fun hc => absurd hc (by simp), ?_⟩
        intro hneed hfail
        rw [loop_from_hint_first_fail alloc _ buf beensent hneed hfail] at h
        simp at h

/-- Witness for C4: a full buffer, an allocator that fails, a one-byte
record. -/
theorem append_alloc_failure_witness :
    buffer_inv full_buf ∧
    ∃ res, append_etsipdu_to_buffer alloc_fail full_buf [7] 1 0 = some res ∧
      res.ret = 0 ∧ res.buf.mem = full_buf.mem ∧ res.buf.used = full_buf.used := by
  have hinv : buffer_inv full_buf := by unfold buffer_inv; decide
  refine ⟨hinv, ?_⟩
  obtain ⟨⟨res, h1, h2, h3⟩, _⟩ :=
    append_alloc_failure alloc_fail full_buf hinv [7] 1 0 msg_full
  have hoom : res.oom = true := h3 (by decide) rfl
  obtain ⟨hret, _, _, j, hj1, hj2, _, hj4, _⟩ := h2 hoom
  have hj : j = 0 := by
    by_contra hne
    have := hj1 0 (by omega)
    simp [alloc_fail] at this
  obtain ⟨e1, _, e3⟩ := hj4 hj
  exact ⟨res, h1, hret, e3 rfl, e1⟩

/-- C6: a successful `append_etsipdu_to_buffer` of a record of `L` bytes leaves
a capacity of at least the unsent bytes plus `L`, and the unsent bytes after
the call are the unsent bytes before it followed by the record.  The call
always returns, and it succeeds when no allocation fails. -/
theorem growth_preserves_data (alloc : Nat → Bool) (buf : export_buffer)
    (hinv : buffer_inv buf) (pdu : List Nat) (beensent : Nat) :
    ∃ res, append_etsipdu_to_buffer alloc buf pdu pdu.length beensent = some res ∧
      ((∀ k, alloc k = true) → res.oom = false) ∧
      (res.oom = false →
        get_buffered_amount buf + pdu.length ≤ res.buf.alloced ∧
        live res.buf = live buf ++ pdu) := by
  obtain ⟨⟨b1, oom⟩, h⟩ := loop_from_hint_total alloc pdu.length buf beensent hinv
  rw [append_etsipdu_eq, h]
  cases oom with
  | true =>
      refine ⟨_, rfl, ?_, fun hc => absurd hc (by simp)⟩
      intro hall
      exact (oom_needs_failure alloc buf beensent b1
        (loop_from_hint_oom alloc _ buf beensent hinv b1 h).1 hall).elim
  | false =>
      refine ⟨_, rfl, fun _ => rfl, fun _ => ?_⟩
      obtain ⟨_, h2, h3, _, _, _⟩ := with_hint_fields buf beensent
      obtain ⟨g1, g2, g3, _, _, g6, _⟩ :=
        extend_loop_done alloc pdu.length (pdu.length + 1) 0 _ _ b1
          (with_hint_inv buf beensent hinv) (by rw [h2, h3]) h
      have hl := push_live b1 pdu g1.1
      rw [g3, with_hint_live] at hl
      refine ⟨?_, hl⟩
      obtain ⟨_, h2, _, h4, _, _⟩ := with_hint_fields buf beensent
      rw [h2, h4] at g6
      have := g1.2
      show buf.used - buf.deadfront + pdu.length ≤ b1.alloced
      omega

/-- Witness for C6: three bytes appended to a buffer without any free
space. -/
theorem growth_preserves_data_witness :
    buffer_inv full_buf ∧
    ∃ res, append_etsipdu_to_buffer alloc_ok full_buf [1, 2, 3] 3 0 = some res ∧
      live res.buf = live full_buf ++ [1, 2, 3] := by
  have hinv : buffer_inv full_buf := by unfold buffer_inv; decide
  obtain ⟨res, h1, h2, h3⟩ := growth_preserves_data alloc_ok full_buf hinv [1, 2, 3] 0
  exact ⟨hinv, res, h1, (h3 (h2 (fun _ => rfl))).2⟩

/-- C7 (the code at the failing input): after a record has been appended and
sent in full the buffer holds no unsent bytes, yet an append with hint 1
leaves `partialfront` at 0, because the test of the source looks at
`buftail - bufhead`, which still counts the bytes already sent. -/
theorem hint_ignored_when_only_dead_bytes :
    (run_calls demo_framing ⟨init_export_buffer true, [], []⟩
        [buffer_call.append_pdu alloc_ok [0, 0] 0,
         buffer_call.transmit sock_all 2]).bind
      (fun st =>
        (append_etsipdu_to_buffer alloc_ok st.buf [0, 1, 9] 3 1).map
          (fun res => (get_buffered_amount st.buf, st.wire, res.oom,
            res.buf.partialfront, live res.buf))) =
      some (0, [0, 0], false, 0, [0, 1, 9]) := by
  decide

/-- C8 (as stated, refuted): for a message without identifier the two-byte
length is not written either, so the buffered amount grows by
`hdrlen + msgbody.len`, not by `hdrlen + 2 + liidlen + msgbody.len`. -/
theorem absent_liid_adds_no_prefix :
    ∃ res, append_message_to_buffer alloc_ok (init_export_buffer true) msg_no_liid 0 =
        some res ∧
      res.oom = false ∧ live res.buf = [0, 4, 5, 6, 7, 8] ∧
      get_buffered_amount res.buf ≠
        get_buffered_amount (init_export_buffer true) +
          (msg_no_liid.hdrlen + 2 + msg_no_liid.liidlen + msg_no_liid.msgbody_len) :=
  ⟨_, rfl, by decide⟩

/-- C8 (amended): a successful `append_message_to_buffer` adds to the end of
the unsent bytes exactly the header (if present), then the two-byte
big-endian `liidlen` and the identifier (both only if the identifier is
present), then the encoded body and the raw trailer; the buffered amount
grows by the lengths of the parts that are present, which is
`hdrlen + 2 + liidlen + msgbody.len` when header and identifier are both
present. -/
theorem append_message_wire (alloc : Nat → Bool) (buf : export_buffer)
    (hinv : buffer_inv buf) (msg : openli_exportmsg) (hv : msg_valid msg)
    (beensent : Nat) :
    ∃ res, append_message_to_buffer alloc buf msg beensent = some res ∧
      ((∀ k, alloc k = true) → res.oom = false) ∧
      (res.oom = false →
        live res.buf = live buf ++ msg_wire msg ∧
        get_buffered_amount res.buf = get_buffered_amount buf + (msg_wire msg).length ∧
        (msg_wire msg).length =
          (if msg.header.isSome then msg.hdrlen else 0) +
            (if msg.liid.isSome then 2 + msg.liidlen else 0) + msg.msgbody_len) := by
  obtain ⟨⟨b1, oom⟩, h⟩ := loop_from_hint_total alloc
    (msg.msgbody_len + msg.hdrlen + msg.liidlen + 2) buf beensent hinv
  rw [append_message_eq, h]
  cases oom with
  | true =>
      refine ⟨_, rfl, ?_, fun hc => absurd hc (by simp)⟩
      intro hall
      exact (oom_needs_failure alloc buf beensent b1
        (loop_from_hint_oom alloc _ buf beensent hinv b1 h).1 hall).elim
  | false =>
      refine ⟨_, rfl, fun _ => rfl, fun _ => ?_⟩
      obtain ⟨_, h2, h3, h4, _, _⟩ := with_hint_fields buf beensent
      obtain ⟨g1, g2, g3, _, _, g6, _⟩ :=
        extend_loop_done alloc _ _ 0 _ _ b1
          (with_hint_inv buf beensent hinv) (by rw [h2, h3]) h
      rw [h2, h4] at g6
      have hlen : (msg_wire msg).length =
          (if msg.header.isSome then msg.hdrlen else 0) +
            (if msg.liid.isSome then 2 + msg.liidlen else 0) + msg.msgbody_len := by
        obtain ⟨v1, v2, v3, v4, v5⟩ := hv
        unfold msg_wire header_wire liid_wire
        cases hh : msg.header <;> cases hl : msg.liid <;>
          simp [htons_bytes, v4, v5] <;>
          (try rw [v1 _ hh]) <;> (try rw [v2 _ hl]) <;> omega
      have hlive : live (write_message b1 msg) = live b1 ++ msg_wire msg := by
        rw [write_message_eq_push b1 msg hv]
        have d1 := g1.1
        rw [push_live _ _ (by simp only [push_fields]; omega),
          push_live _ _ (by simp only [push_fields]; omega),
          push_live _ _ (by simp only [push_fields]; omega), push_live _ _ d1]
        simp [msg_wire, List.append_assoc]
      have hused : (write_message b1 msg).used = b1.used + (msg_wire msg).length := by
        rw [write_message_eq_push b1 msg hv]
        simp only [push_fields, msg_wire, List.length_append]
        omega
      have hdead := (write_message_fields b1 msg).2.1
      refine ⟨by rw [hlive, g3, with_hint_live], ?_, hlen⟩
      show (write_message b1 msg).used - (write_message b1 msg).deadfront =
        buf.used - buf.deadfront + (msg_wire msg).length
      rw [hused, hdead]
      have := g1.1
      omega

/-- Witness for C8: a message with header and identifier appended to a fresh
buffer. -/
theorem append_message_wire_witness :
    buffer_inv (init_export_buffer true) ∧ msg_valid msg_full ∧
    ∃ res, append_message_to_buffer alloc_ok (init_export_buffer true) msg_full 0 =
        some res ∧
      live res.buf = live (init_export_buffer true) ++ msg_wire msg_full := by
  have hinv : buffer_inv (init_export_buffer true) := by unfold buffer_inv; decide
  have hv : msg_valid msg_full := by
    unfold msg_valid msg_full
    simp
  obtain ⟨res, h1, h2, h3⟩ :=
    append_message_wire alloc_ok (init_export_buffer true) hinv msg_full hv 0
  exact ⟨hinv, hv, res, h1, (h3 (h2 (fun _ => rfl))).1⟩

/-- C10: every call of `transmit_buffered_records` returns, and when the
`send` it issues fails with `EAGAIN` the call returns 0, when it fails with
another error the call returns -1, and in both cases the buffer is exactly
the buffer from before the call, so that the next call with the same limit
hands the same range with the same bytes to `send`. -/
theorem would_block_is_success (fr : framing) (buf : export_buffer)
    (sock : Nat → send_outcome) (bytelimit : Nat) :
    ∃ res, transmit_buffered_records fr buf sock bytelimit = some res ∧
      ∀ off s, res.offered = some (off, s) →
        (sock s = send_outcome.eagain → res.ret = 0 ∧ res.buf = buf) ∧
        (sock s = send_outcome.failed → res.ret = -1 ∧ res.buf = buf) ∧
        (sock s = send_outcome.eagain ∨ sock s = send_outcome.failed →
          ∀ sock2, ∃ res2,
            transmit_buffered_records fr res.buf sock2 bytelimit = some res2 ∧
            res2.offered = some (off, s) ∧
            offered_bytes res.buf res2.offered = offered_bytes buf res.offered) := by
  obtain ⟨S, hS⟩ := scan_from_start fr buf bytelimit
  have hnext : ∀ sock2, ∃ res2,
      transmit_buffered_records fr buf sock2 bytelimit = some res2 ∧
      res2.offered = (if sub_u64 S buf.partialfront ≠ 0 then
        some (buf.deadfront + buf.partialfront, sub_u64 S buf.partialfront) else none) :=
    fun sock2 => transmit_offered fr buf sock2 bytelimit S hS
  rw [transmit_eq fr buf sock bytelimit S hS]
  by_cases c : sub_u64 S buf.partialfront ≠ 0
  · rw [if_pos c]
    rw [if_pos c] at hnext
    cases hs : sock (sub_u64 S buf.partialfront) with
    | eagain =>
        refine ⟨_, rfl, ?_⟩
        intro off s ho
        simp only [Option.some.injEq, Prod.mk.injEq] at ho
        obtain ⟨ho1, ho2⟩ := ho
        subst ho1 ho2
        refine ⟨fun _ => ⟨rfl, rfl⟩, fun hf => ?_, fun _ sock2 => ?_⟩
        · rw [hs] at hf; exact absurd hf (by simp)
        · obtain ⟨res2, g1, g2⟩ := hnext sock2
          exact ⟨res2, g1, g2, by rw [g2]⟩
    | failed =>
        refine ⟨_, rfl, ?_⟩
        intro off s ho
        simp only [Option.some.injEq, Prod.mk.injEq] at ho
        obtain ⟨ho1, ho2⟩ := ho
        subst ho1 ho2
        refine ⟨fun hf => ?_, fun _ => ⟨rfl, rfl⟩, fun _ sock2 => ?_⟩
        · rw [hs] at hf; exact absurd hf (by simp)
        · obtain ⟨res2, g1, g2⟩ := hnext sock2
          exact ⟨res2, g1, g2, by rw [g2]⟩
    | accepted r =>
        simp only
        by_cases c2 : r < sub_u64 S buf.partialfront
        · rw [if_pos c2]
          refine ⟨_, rfl, ?_⟩
          intro off s ho
          simp only [Option.some.injEq, Prod.mk.injEq] at ho
          obtain ⟨ho1, ho2⟩ := ho
          subst ho1 ho2
          refine ⟨fun hf => ?_, fun hf => ?_, fun hf => ?_⟩
          · rw [hs] at hf; exact absurd hf (by simp)
          · rw [hs] at hf; exact absurd hf (by simp)
          · rw [hs] at hf; exact absurd hf (by simp)
        · rw [if_neg c2]
          refine ⟨_, rfl, ?_⟩
          intro off s ho
          rw [(shrink_after_out _ _ _ _).1] at ho
          simp only [Option.some.injEq, Prod.mk.injEq] at ho
          obtain ⟨ho1, ho2⟩ := ho
          subst ho1 ho2
          refine ⟨fun hf => ?_, fun hf => ?_, fun hf => ?_⟩
          · rw [hs] at hf; exact absurd hf (by simp)
          · rw [hs] at hf; exact absurd hf (by simp)
          · rw [hs] at hf; exact absurd hf (by simp)
  · rw [if_neg c]
    refine ⟨_, rfl, ?_⟩
    intro off s ho
    rw [(shrink_after_out _ _ _ _).1] at ho
    exact absurd ho (by simp)

/-- Example for C10: a buffer with two records against a socket that would
block. -/
theorem would_block_is_success_witness :
    ∃ res, transmit_buffered_records demo_framing two_records_buf sock_eagain 300 =
        some res ∧
      res.offered = some (0, 300) ∧ res.ret = 0 ∧ res.buf = two_records_buf := by
  obtain ⟨res, h1, h2⟩ :=
    would_block_is_success demo_framing two_records_buf sock_eagain 300
  have ho : res.offered = some (0, 300) := by
    have e : transmit_buffered_records demo_framing two_records_buf sock_eagain 300 =
        some { buf := two_records_buf, ret := 0, offered := some (0, 300) } := rfl
    rw [e] at h1
    simp only [Option.some.injEq] at h1
    rw [← h1]
  obtain ⟨g, _, _⟩ := h2 0 300 ho
  exact ⟨res, h1, ho, g rfl⟩

/-- C2: every call returns; if it offers `s` bytes and the socket accepts only
`r < s` of them, the call returns `r`, `partialfront` has grown by exactly
`r`, and `deadfront`, the stored bytes, the used length and the capacity are
unchanged.  Whatever byte limit the next call is given, a range it offers
starts at offset `partialfront` from the live front `bufhead + deadfront`;
with the same byte limit it offers exactly the `s - r` bytes that were left
over. -/
theorem partial_send_resumes (fr : framing) (buf : export_buffer)
    (sock : Nat → send_outcome) (bytelimit : Nat) :
    ∃ res, transmit_buffered_records fr buf sock bytelimit = some res ∧
      ∀ off s r, res.offered = some (off, s) → sock s = send_outcome.accepted r → r < s →
        res.ret = (r : Int) ∧
        res.buf.partialfront = buf.partialfront + r ∧
        res.buf.deadfront = buf.deadfront ∧ res.buf.mem = buf.mem ∧
        res.buf.used = buf.used ∧ res.buf.alloced = buf.alloced ∧
        off = buf.deadfront + buf.partialfront ∧
        (∀ sock2 limit2, ∃ res2,
          transmit_buffered_records fr res.buf sock2 limit2 = some res2 ∧
          ∀ off2 s2, res2.offered = some (off2, s2) →
            off2 = res.buf.deadfront + res.buf.partialfront) ∧
        (∀ sock2, ∃ res2,
          transmit_buffered_records fr res.buf sock2 bytelimit = some res2 ∧
          res2.offered = some (off + r, s - r)) := by
  obtain ⟨S, hS⟩ := scan_from_start fr buf bytelimit
  have hgen : ∀ (b : export_buffer) sock2 limit2, ∃ res2,
      transmit_buffered_records fr b sock2 limit2 = some res2 ∧
      ∀ off2 s2, res2.offered = some (off2, s2) → off2 = b.deadfront + b.partialfront := by
    intro b sock2 limit2
    obtain ⟨S2, hS2⟩ := scan_from_start fr b limit2
    obtain ⟨res2, g1, g2⟩ := transmit_offered fr b sock2 limit2 S2 hS2
    refine ⟨res2, g1, ?_⟩
    intro off2 s2 ho
    rw [g2] at ho
    by_cases c : sub_u64 S2 b.partialfront ≠ 0
    · rw [if_pos c] at ho
      simp only [Option.some.injEq, Prod.mk.injEq] at ho
      exact ho.1.symm
    · rw [if_neg c] at ho
      exact absurd ho (by simp)
  rw [transmit_eq fr buf sock bytelimit S hS]
  by_cases c : sub_u64 S buf.partialfront ≠ 0
  · rw [if_pos c]
    cases hs : sock (sub_u64 S buf.partialfront) with
    | eagain =>
        refine ⟨_, rfl, ?_⟩
        intro off s r ho hr _
        simp only [Option.some.injEq, Prod.mk.injEq] at ho
        rw [← ho.2, hs] at hr
        exact absurd hr (by simp)
    | failed =>
        refine ⟨_, rfl, ?_⟩
        intro off s r ho hr _
        simp only [Option.some.injEq, Prod.mk.injEq] at ho
        rw [← ho.2, hs] at hr
        exact absurd hr (by simp)
    | accepted r0 =>
        simp only
        by_cases c2 : r0 < sub_u64 S buf.partialfront
        · rw [if_pos c2]
          refine ⟨_, rfl, ?_⟩
          intro off s r ho hr hlt
          simp only [Option.some.injEq, Prod.mk.injEq] at ho
          obtain ⟨ho1, ho2⟩ := ho
          subst ho1 ho2
          rw [hs] at hr
          simp only [send_outcome.accepted.injEq] at hr
          subst hr
          refine ⟨rfl, rfl, rfl, rfl, rfl, rfl, rfl, fun sock2 limit2 => hgen _ sock2 limit2,
            fun sock2 => ?_⟩
          have hS' : scan_records fr { buf with partialfront := buf.partialfront + r0 }
              bytelimit (buf.used - buf.deadfront + 1) 0 = some S := by
            rw [scan_records_set_partialfront]; exact hS
          obtain ⟨res2, g1, g2⟩ := transmit_offered fr
            { buf with partialfront := buf.partialfront + r0 } sock2 bytelimit S hS'
          refine ⟨res2, g1, ?_⟩
          rw [g2]
          have e := sub_u64_resume S buf.partialfront r0 c2
          simp only
          rw [e, if_pos (by omega)]
          simp only [Option.some.injEq, Prod.mk.injEq, and_true]
          omega
        · rw [if_neg c2]
          refine ⟨_, rfl, ?_⟩
          intro off s r ho hr hlt
          rw [(shrink_after_out _ _ _ _).1] at ho
          simp only [Option.some.injEq, Prod.mk.injEq] at ho
          rw [← ho.2, hs] at hr
          simp only [send_outcome.accepted.injEq] at hr
          omega
  · rw [if_neg c]
    refine ⟨_, rfl, ?_⟩
    intro off s r ho _ _
    rw [(shrink_after_out _ _ _ _).1] at ho
    exact absurd ho (by simp)

/-- Example for C2: of the 300 bytes offered the socket takes 40; the next
call with the same limit offers the remaining 260 bytes from offset 40. -/
theorem partial_send_resumes_witness :
    ∃ res, transmit_buffered_records demo_framing two_records_buf (sock_upto 40) 300 =
        some res ∧
      res.offered = some (0, 300) ∧ res.buf.partialfront = 40 ∧ res.buf.deadfront = 0 ∧
      ∃ res2, transmit_buffered_records demo_framing res.buf sock_all 300 = some res2 ∧
        res2.offered = some (40, 260) := by
  obtain ⟨res, h1, h2⟩ :=
    partial_send_resumes demo_framing two_records_buf (sock_upto 40) 300
  have ho : res.offered = some (0, 300) := by
    have e : (transmit_buffered_records demo_framing two_records_buf (sock_upto 40) 300).map
        (fun x => x.offered) = some (some (0, 300)) := by decide
    rw [h1] at e
    simpa using e
  obtain ⟨_, g2, g3, _, _, _, _, _, g9⟩ := h2 0 300 40 ho rfl (by decide)
  exact ⟨res, h1, ho, g2, g3, g9 sock_all⟩

/-- C5: the invariant `deadfront ≤ used length ≤ capacity` holds after
`init_export_buffer`, and from a buffer that satisfies it each of
`append_etsipdu_to_buffer`, `append_message_to_buffer` (for a message whose
trailer is part of its body length) and `transmit_buffered_records` (for
unsent bytes that are well-framed records, any byte limit, and any answer of
a socket that returns an `int` no larger than what it was offered) returns
and leaves a buffer that satisfies it, failed allocations and partial sends
included. -/
theorem buffer_invariant_preserved (buf : export_buffer) (hinv : buffer_inv buf) :
    (∀ hasnetcomm, buffer_inv (init_export_buffer hasnetcomm)) ∧
    (∀ alloc pdustart pdulen beensent, ∃ res,
      append_etsipdu_to_buffer alloc buf pdustart pdulen beensent = some res ∧
      buffer_inv res.buf) ∧
    (∀ alloc msg beensent, msg.ipclen ≤ msg.msgbody_len → ∃ res,
      append_message_to_buffer alloc buf msg beensent = some res ∧
      buffer_inv res.buf) ∧
    (∀ fr lens sock bytelimit, framed_from fr buf buf.deadfront lens →
      buf.partialfront < 2 ^ 32 → socket_ok sock → ∃ res,
      transmit_buffered_records fr buf sock bytelimit = some res ∧
      buffer_inv res.buf) := by
  refine ⟨?_, ?_, ?_, ?_⟩
  · intro hasnetcomm
    exact ⟨le_refl _, le_refl _⟩
  · intro alloc pdustart pdulen beensent
    obtain ⟨⟨b1, oom⟩, h⟩ := loop_from_hint_total alloc pdulen buf beensent hinv
    rw [append_etsipdu_eq, h]
    cases oom with
    | true => exact ⟨_, rfl, (loop_from_hint_oom alloc _ buf beensent hinv b1 h).2⟩
    | false =>
        refine ⟨_, rfl, ?_⟩
        obtain ⟨_, h2, h3, _, _, _⟩ := with_hint_fields buf beensent
        obtain ⟨g1, g2, _⟩ :=
          extend_loop_done alloc pdulen (pdulen + 1) 0 _ _ b1
            (with_hint_inv buf beensent hinv) (by rw [h2, h3]) h
        obtain ⟨d1, d2⟩ := g1
        simp only [buffer_inv]
        omega
  · intro alloc msg beensent hmsg
    obtain ⟨⟨b1, oom⟩, h⟩ := loop_from_hint_total alloc
      (msg.msgbody_len + msg.hdrlen + msg.liidlen + 2) buf beensent hinv
    rw [append_message_eq, h]
    cases oom with
    | true => exact ⟨_, rfl, (loop_from_hint_oom alloc _ buf beensent hinv b1 h).2⟩
    | false =>
        refine ⟨_, rfl, ?_⟩
        obtain ⟨_, h2, h3, _, _, _⟩ := with_hint_fields buf beensent
        obtain ⟨g1, g2, _⟩ :=
          extend_loop_done alloc _ _ 0 _ _ b1
            (with_hint_inv buf beensent hinv) (by rw [h2, h3]) h
        obtain ⟨d1, d2⟩ := g1
        obtain ⟨f1, f2, _, _, f5⟩ := write_message_fields b1 msg
        simp only [buffer_inv]
        rw [f1, f2, f5]
        constructor
        · omega
        · by_cases c1 : msg.header.isSome <;> by_cases c2 : msg.liid.isSome <;>
            simp only [c1, c2, if_true, if_false, Bool.false_eq_true] <;> omega
  · intro fr lens sock bytelimit hfr hpf hsock
    obtain ⟨hsum, _⟩ := framed_from_sum fr buf lens _ hfr
    have hS : scan_records fr buf bytelimit (buf.used - buf.deadfront + 1) 0 =
        some (fits lens bytelimit) := by
      have := scan_records_framed fr buf bytelimit lens (buf.used - buf.deadfront + 1) 0
        hfr (by have := (framed_from_sum fr buf lens _ hfr).2; omega) (Nat.zero_le _)
      simpa using this
    have hfit := (fits_le lens bytelimit).2
    rw [transmit_eq fr buf sock bytelimit _ hS]
    by_cases c : sub_u64 (fits lens bytelimit) buf.partialfront ≠ 0
    · rw [if_pos c]
      cases hs : sock (sub_u64 (fits lens bytelimit) buf.partialfront) with
      | eagain => exact ⟨_, rfl, hinv⟩
      | failed => exact ⟨_, rfl, hinv⟩
      | accepted r =>
          simp only
          obtain ⟨hr1, hr2⟩ := hsock _ _ hs
          by_cases c2 : r < sub_u64 (fits lens bytelimit) buf.partialfront
          · rw [if_pos c2]
            exact ⟨_, rfl, hinv⟩
          · rw [if_neg c2]
            refine ⟨_, rfl, shrink_after_inv _ _ _ _ ?_⟩
            have hr : r = sub_u64 (fits lens bytelimit) buf.partialfront := by omega
            by_cases c3 : buf.partialfront ≤ fits lens bytelimit
            · simp only [sub_u64, if_pos c3] at hr
              obtain ⟨d1, d2⟩ := hinv
              simp only [buffer_inv]
              omega
            · have := sub_u64_wrap_large (fits lens bytelimit) buf.partialfront
                (by omega) hpf
              omega
    · rw [if_neg c]
      exact ⟨_, rfl, shrink_after_inv _ _ _ _ hinv⟩

/-- Witness for C5: the buffer with two records satisfies the invariant, and
so does the buffer a transmit of at most 150 bytes leaves behind. -/
theorem buffer_invariant_preserved_witness :
    buffer_inv two_records_buf ∧
    ∃ res, transmit_buffered_records demo_framing two_records_buf (sock_upto 1000) 150 =
        some res ∧
      buffer_inv res.buf := by
  have hinv : buffer_inv two_records_buf := by unfold buffer_inv; decide
  have hfr : framed_from demo_framing two_records_buf two_records_buf.deadfront
      [100, 200] := by
    refine ⟨by decide, by decide, by decide, by decide, ?_⟩
    show 0 + 100 + 200 = 300
    rfl
  have hsock : socket_ok (sock_upto 1000) := by
    intro n r h
    simp only [sock_upto, send_outcome.accepted.injEq] at h
    subst h
    exact ⟨Nat.min_le_right _ _, lt_of_le_of_lt (Nat.min_le_left _ _) (by decide)⟩
  exact ⟨hinv, (buffer_invariant_preserved two_records_buf hinv).2.2.2 demo_framing
    [100, 200] (sock_upto 1000) 150 hfr (by decide) hsock⟩

/-- C1 (the code at the failing input): two records are appended; a transmit
with limit 5 offers both and the socket takes the first record only; a
transmit with limit 3 then finds that the records within its limit are the
bytes already sent, sends nothing and resets `partialfront`; the next
transmit sends both records from the start.  The socket has then accepted
the first record twice although the buffer reports nothing left to send. -/
theorem partial_front_lost_on_lower_limit :
    ∃ st, run_calls demo_framing ⟨init_export_buffer true, [], []⟩
        [buffer_call.append_pdu alloc_ok [0, 0] 0,
         buffer_call.append_pdu alloc_ok [0, 1, 9] 0,
         buffer_call.transmit (sock_upto 2) 5,
         buffer_call.transmit sock_all 3,
         buffer_call.transmit sock_all 5] = some st ∧
      get_buffered_amount st.buf = 0 ∧
      st.appended = [0, 0, 0, 1, 9] ∧
      st.wire = [0, 0, 0, 0, 0, 1, 9] ∧
      ¬ st.wire <+: st.appended :=
  ⟨_, rfl, by decide⟩

/-- C9 (the code at the failing input): the records within the limit are the
bytes a partial send has already delivered, so no `send` is made and
`deadfront` is not advanced; the shrinking branch then moves `rem` bytes from
`bhead + offset`, which takes the two slack bytes behind `buftail` into the
buffer.  Before the call the buffer held `[0, 0, 0, 1, 9]` of which
`[0, 1, 9]` were unsent; afterwards it holds `[0, 1, 9, 77, 88]` with
`deadfront = 0` and `partialfront = 0`. -/
theorem shrink_after_skipped_send :
    live skipped_send_buf = [0, 0, 0, 1, 9] ∧
    unsent skipped_send_buf = [0, 1, 9] ∧
    (transmit_buffered_records demo_framing skipped_send_buf sock_all 3).map
      (fun res => (res.offered, res.ret, res.buf.alloced, res.buf.deadfront,
        res.buf.partialfront, live res.buf)) =
      some (none, 0, 10485760, 0, 0, [0, 1, 9, 77, 88]) :=
  ⟨by decide, by decide, rfl⟩

/-! ## The exporter -/

theorem connect_single_target_fd (out : connect_outcome) (d : export_dest) :
    (connect_single_target out d).1.destid = d.destid ∧
    (connect_single_target out d).1.buffer = d.buffer := by
  cases out <;> simp [connect_single_target]
  split <;> simp

theorem connect_from_spec (conn : Nat → connect_outcome) :
    ∀ (dests : List export_dest) (i success failed : Nat),
      (connect_from conn i dests success failed).dests.length = dests.length ∧
      (connect_from conn i dests success failed).success =
        success + (connect_from conn i dests success failed).dests.countP is_connected ∧
      (connect_from conn i dests success failed).success +
        (connect_from conn i dests success failed).failed_conns =
        success + failed + dests.length ∧
      (∀ k, k ∈ (connect_from conn i dests success failed).attempts → i ≤ k) ∧
      (∀ k (h : k < dests.length), (dests.get ⟨k, h⟩).fd ≠ -1 →
        (connect_from conn i dests success failed).dests.get? k = some (dests.get ⟨k, h⟩) ∧
        i + k ∉ (connect_from conn i dests success failed).attempts) := by
  intro dests
  induction dests with
  | nil =>
      intro i success failed
      simp [connect_from]
  | cons d rest ih =>
      intro i success failed
      simp only [connect_from]
      by_cases hfd : d.fd ≠ -1
      · rw [if_pos hfd]
        obtain ⟨h1, h2, h3, h4, h5⟩ := ih (i + 1) (success + 1) failed
        have hc : is_connected d = true := by simp [is_connected, hfd]
        refine ⟨by simp [h1], ?_, ?_, ?_, ?_⟩
        · simp only [List.countP_cons_of_pos _ _ hc]
          rw [h2]; omega
        · simp only [List.length_cons]; omega
        · intro k hk
          have := h4 k hk
          omega
        · intro k hk hne
          cases k with
          | zero =>
              refine ⟨by simp, ?_⟩
              intro hmem
              have := h4 _ hmem
              omega
          | succ k =>
              have hk2 : k < rest.length := by simpa using hk
              obtain ⟨g1, g2⟩ := h5 k hk2 (by simpa using hne)
              refine ⟨by simpa using g1, ?_⟩
              have e : i + (k + 1) = i + 1 + k := by omega
              rw [e]
              exact g2
      · rw [if_neg hfd]
        by_cases hc2 : (connect_single_target (conn i) d).2 ≠ -1
        · simp only [hc2, ne_eq, not_false_eq_true, if_true]
          obtain ⟨h1, h2, h3, h4, h5⟩ := ih (i + 1) (success + 1) failed
          have hc : is_connected
              { (connect_single_target (conn i) d).1 with
                fd := (connect_single_target (conn i) d).2 } = true := by
            simp [is_connected, hc2]
          refine ⟨by simp [h1], ?_, ?_, ?_, ?_⟩
          · simp only [List.countP_cons_of_pos _ _ hc]
            rw [h2]; omega
          · simp only [List.length_cons]; omega
          · intro k hk
            simp only [List.mem_cons] at hk
            rcases hk with e | hk
            · omega
            · have := h4 k hk; omega
          · intro k hk hne
            cases k with
            | zero => exact absurd (by simpa using hne) hfd
            | succ k =>
                have hk2 : k < rest.length := by simpa using hk
                obtain ⟨g1, g2⟩ := h5 k hk2 (by simpa using hne)
                refine ⟨by simpa using g1, ?_⟩
                have e : i + (k + 1) = i + 1 + k := by omega
                rw [e]
                simp only [List.mem_cons, not_or]
                exact ⟨by omega, g2⟩
        · have hc3 : (connect_single_target (conn i) d).2 = -1 := by
            by_contra hne; exact hc2 hne
          simp only [hc3, ne_eq, not_true_eq_false, if_false]
          obtain ⟨h1, h2, h3, h4, h5⟩ := ih (i + 1) success (failed + 1)
          have hc : ¬ is_connected
              { (connect_single_target (conn i) d).1 with fd := -1 } = true := by
            simp [is_connected]
          refine ⟨by simp [h1], ?_, ?_, ?_, ?_⟩
          · simp only [List.countP_cons_of_neg _ _ hc]
            rw [h2]
          · simp only [List.length_cons]; omega
          · intro k hk
            simp only [List.mem_cons] at hk
            rcases hk with e | hk
            · omega
            · have := h4 k hk; omega
          · intro k hk hne
            cases k with
            | zero => exact absurd (by simpa using hne) hfd
            | succ k =>
                have hk2 : k < rest.length := by simpa using hk
                obtain ⟨g1, g2⟩ := h5 k hk2 (by simpa using hne)
                refine ⟨by simpa using g1, ?_⟩
                have e : i + (k + 1) = i + 1 + k := by omega
                rw [e]
                simp only [List.mem_cons, not_or]
                exact ⟨by omega, g2⟩

theorem route_record_no_match (snd : Nat → Int) (msg : export_record) :
    ∀ (dests : List export_dest), (∀ x, x ∈ dests → x.destid ≠ msg.destid) →
      route_record snd msg dests =
        { dests := dests, sends := [], closed := [], ret := none } := by
  intro dests
  induction dests with
  | nil => intro _; rfl
  | cons d rest ih =>
      intro h
      simp only [route_record]
      rw [if_neg (h d (List.mem_cons_self _ _))]
      rw [ih (fun x hx => h x (List.mem_cons_of_mem _ hx))]

theorem route_record_first_match (snd : Nat → Int) (msg : export_record)
    (d : export_dest) (post : List export_dest) (hd : d.destid = msg.destid) :
    ∀ (pre : List export_dest), (∀ x, x ∈ pre → x.destid ≠ msg.destid) →
      route_record snd msg (pre ++ d :: post) =
        { dests := pre ++
            (if (forward_message snd d msg).ret = -1 then
              { (forward_message snd d msg).dest with fd := -1 }
             else (forward_message snd d msg).dest) :: post,
          sends := (forward_message snd d msg).sends,
          closed := if (forward_message snd d msg).ret = -1 then
            [(forward_message snd d msg).dest.fd] else [],
          ret := some (forward_message snd d msg).ret } := by
  intro pre
  induction pre with
  | nil =>
      intro _
      simp only [List.nil_append, route_record]
      rw [if_pos hd]
      by_cases c : (forward_message snd d msg).ret = -1
      · simp only [c, if_true]
      · simp only [c, if_false]
  | cons x rest ih =>
      intro h
      have e := ih (fun y hy => h y (List.mem_cons_of_mem _ hy))
      show route_record snd msg (x :: (rest ++ d :: post)) = _
      rw [route_record, if_neg (h x (List.mem_cons_self _ _)), e]
      rfl

theorem forward_message_dest (snd : Nat → Int) (d : export_dest) (msg : export_record) :
    (forward_message snd d msg).dest = d := by
  unfold forward_message
  simp only
  split
  · rfl
  · split
    · rfl
    · split
      · split <;> rfl
      · rfl

/-- C14: for every destination list and every outcome of the connection
attempts, `connect_export_targets` returns the number of destinations whose
`fd` is not -1 after the call, leaves `failed_conns` at the number of
destinations minus that count, and neither attempts a connection for a
destination that was already connected nor changes it. -/
theorem connect_export_targets_counts (conn : Nat → connect_outcome)
    (dests : List export_dest) :
    (connect_export_targets conn dests).dests.length = dests.length ∧
    (connect_export_targets conn dests).success =
      (connect_export_targets conn dests).dests.countP is_connected ∧
    (connect_export_targets conn dests).failed_conns =
      dests.length - (connect_export_targets conn dests).success ∧
    (connect_export_targets conn dests).success ≤ dests.length ∧
    ∀ k (h : k < dests.length), (dests.get ⟨k, h⟩).fd ≠ -1 →
      (connect_export_targets conn dests).dests.get? k = some (dests.get ⟨k, h⟩) ∧
      k ∉ (connect_export_targets conn dests).attempts := by
  obtain ⟨h1, h2, h3, _, h5⟩ := connect_from_spec conn dests 0 0 0
  unfold connect_export_targets
  refine ⟨h1, by simpa using h2, by omega, by omega, ?_⟩
  intro k hk hne
  obtain ⟨g1, g2⟩ := h5 k hk hne
  exact ⟨g1, by simpa using g2⟩

/-- Example for C14: of three destinations the first is connected already,
the second fails to connect and the third connects. -/
theorem connect_export_targets_counts_witness :
    (connect_export_targets conn_demo [dest_up, dest_down, dest_down]).success = 2 ∧
    (connect_export_targets conn_demo [dest_up, dest_down, dest_down]).failed_conns = 1 ∧
    (connect_export_targets conn_demo [dest_up, dest_down, dest_down]).attempts = [1, 2] ∧
    (connect_export_targets conn_demo [dest_up, dest_down, dest_down]).dests.map
      (fun d => d.fd) = [5, -1, 9] := by
  have h := connect_export_targets_counts conn_demo [dest_up, dest_down, dest_down]
  exact ⟨by decide, by decide, by decide, by decide⟩

/-- C13: `check_epoll_fd` hands an export record to `forward_message` for the
first destination whose `destid` equals the record's and changes nothing of
any destination but the `fd` of that one, which becomes -1 when
`forward_message` returns -1; when no destination has the `destid`, no
`send` is made and every destination is as before.  The last part ties the
search to a call of `check_epoll_fd` on a queue that holds the record. -/
theorem routing_first_match (snd : Nat → Int) (msg : export_record)
    (dests : List export_dest) :
    (∀ pre d post, dests = pre ++ d :: post →
      (∀ x, x ∈ pre → x.destid ≠ msg.destid) → d.destid = msg.destid →
      (route_record snd msg dests).sends = (forward_message snd d msg).sends ∧
      (route_record snd msg dests).ret = some (forward_message snd d msg).ret ∧
      ∃ d1, (route_record snd msg dests).dests = pre ++ d1 :: post ∧
        d1.destid = d.destid ∧ d1.failmsg = d.failmsg ∧ d1.buffer = d.buffer ∧
        d1.fd = (if (forward_message snd d msg).ret = -1 then -1 else d.fd)) ∧
    ((∀ x, x ∈ dests → x.destid ≠ msg.destid) →
      (route_record snd msg dests).dests = dests ∧
      (route_record snd msg dests).sends = [] ∧
      (route_record snd msg dests).ret = none) ∧
    (∀ (snd2 : Nat → Nat → Int) (st : exporter_state) (q : Nat),
      st.dests = dests → snd2 0 = snd →
      st.queues q = [openli_export_recv.etsirec msg] →
      (check_epoll_fd snd2 st (queue_event q)).1.dests =
        (route_record snd msg dests).dests ∧
      (check_epoll_fd snd2 st (queue_event q)).1.sends =
        st.sends ++ (route_record snd msg dests).sends ∧
      (check_epoll_fd snd2 st (queue_event q)).1.queues q = []) := by
  refine ⟨?_, ?_, ?_⟩
  · intro pre d post hsplit hpre hd
    subst hsplit
    rw [route_record_first_match snd msg d post hd pre hpre]
    refine ⟨rfl, rfl, _, rfl, ?_⟩
    rw [forward_message_dest]
    by_cases c : (forward_message snd d msg).ret = -1
    · simp [c]
    · simp [c]
  · intro h
    rw [route_record_no_match snd msg dests h]
    exact ⟨rfl, rfl, rfl⟩
  · intro snd2 st q hd hs hq
    subst hd hs
    simp only [check_epoll_fd, queue_event, EXP_EPOLL_MQUEUE, EXP_EPOLL_TIMER, hq,
      drain_queue, MAX_READ_BATCH]
    simp

/-- Example for C13: a record for destination 8 with destinations 7 and 8;
the send fails, so destination 8 is marked disconnected and destination 7 is
as before. -/
theorem routing_first_match_witness :
    (route_record snd_fail (record_for 8) [dest_down, dest_up]).dests.map
      (fun d => (d.destid, d.fd)) = [(7, -1), (8, -1)] ∧
    (route_record snd_fail (record_for 8) [dest_down, dest_up]).sends = [(5, [1, 2, 3])] ∧
    (route_record snd_fail (record_for 8) [dest_down, dest_up]).ret = some (-1) := by
  obtain ⟨h1, _, _⟩ := routing_first_match snd_fail (record_for 8) [dest_down, dest_up]
  obtain ⟨g1, g2, d1, g3, g4, g5, g6, g7⟩ :=
    h1 [dest_down] dest_up [] rfl (by decide) rfl
  exact ⟨by decide, by decide, by decide⟩

theorem drain_queue_step_etsirec (snd : Nat → Nat → Int) (msg : export_record)
    (rest : List openli_export_recv) (readmsgs j : Nat) (st : exporter_state) (ret : Int)
    (h : readmsgs < MAX_READ_BATCH) :
    drain_queue snd (openli_export_recv.etsirec msg :: rest) readmsgs j st ret =
      drain_queue snd rest (readmsgs + 1) (j + 1)
        { st with dests := (route_record (snd j) msg st.dests).dests,
                  sends := st.sends ++ (route_record (snd j) msg st.dests).sends,
                  closed := st.closed ++ (route_record (snd j) msg st.dests).closed }
        (match (route_record (snd j) msg st.dests).ret with
          | some v => v
          | none => -1) := by
  rw [drain_queue, if_pos h]

theorem drain_queue_step_fin (snd : Nat → Nat → Int) (packet : Nat)
    (rest : List openli_export_recv) (readmsgs j : Nat) (st : exporter_state) (ret : Int)
    (h : readmsgs < MAX_READ_BATCH) :
    drain_queue snd (openli_export_recv.packet_fin packet :: rest) readmsgs j st ret =
      drain_queue snd rest readmsgs (j + 1)
        { st with destroyed := st.destroyed ++ [packet] } ret := by
  rw [drain_queue, if_pos h]

theorem drain_queue_bound (snd : Nat → Nat → Int) :
    ∀ (queue : List openli_export_recv) (readmsgs j : Nat) (st : exporter_state) (ret : Int),
      readmsgs ≤ MAX_READ_BATCH →
      ∃ removed, queue = removed ++ (drain_queue snd queue readmsgs j st ret).remaining ∧
        readmsgs + removed.countP is_etsirec ≤ MAX_READ_BATCH ∧
        ((drain_queue snd queue readmsgs j st ret).remaining ≠ [] →
          readmsgs + removed.countP is_etsirec = MAX_READ_BATCH) := by
  intro queue
  induction queue with
  | nil =>
      intro readmsgs j st ret h
      exact ⟨[], rfl, by simpa using h, fun hne => absurd rfl hne⟩
  | cons m rest ih =>
      intro readmsgs j st ret h
      by_cases hlt : readmsgs < MAX_READ_BATCH
      · cases m with
        | etsirec msg =>
            rw [drain_queue_step_etsirec snd msg rest readmsgs j st ret hlt]
            obtain ⟨removed, h1, h2, h3⟩ := ih (readmsgs + 1) (j + 1) _ _ (by omega)
            refine ⟨openli_export_recv.etsirec msg :: removed, ?_, ?_, ?_⟩
            · rw [List.cons_append, ← h1]
            · rw [List.countP_cons_of_pos _ _ (by rfl)]; omega
            · intro hne
              rw [List.countP_cons_of_pos _ _ (by rfl)]
              have := h3 hne
              omega
        | packet_fin p =>
            rw [drain_queue_step_fin snd p rest readmsgs j st ret hlt]
            obtain ⟨removed, h1, h2, h3⟩ := ih readmsgs (j + 1) _ _ h
            refine ⟨openli_export_recv.packet_fin p :: removed, ?_, ?_, ?_⟩
            · rw [List.cons_append, ← h1]
            · rw [List.countP_cons_of_neg _ _ (by simp [is_etsirec])]; exact h2
            · intro hne
              rw [List.countP_cons_of_neg _ _ (by simp [is_etsirec])]
              exact h3 hne
      · have e : drain_queue snd (m :: rest) readmsgs j st ret =
            { st := st, remaining := m :: rest, ret := ret } := by
          cases m <;> simp [drain_queue, hlt]
        rw [e]
        exact ⟨[], rfl, by simpa using h, fun _ => by simp; omega⟩

theorem check_epoll_fd_queue (snd : Nat → Nat → Int) (st : exporter_state) (q : Nat) :
    check_epoll_fd snd st (queue_event q) =
      ({ (drain_queue snd (st.queues q) 0 0 st 0).st with
          queues := Function.update (drain_queue snd (st.queues q) 0 0 st 0).st.queues q
            (drain_queue snd (st.queues q) 0 0 st 0).remaining },
        (drain_queue snd (st.queues q) 0 0 st 0).ret) := by
  simp [check_epoll_fd, queue_event, EXP_EPOLL_MQUEUE, EXP_EPOLL_TIMER]

/-- C11 (the code at the failing input): for a destination with `fd = -1`,
`forward_message` returns 0 without any `send` and without touching the
destination, whose backlog buffer is therefore as before; the run of
`check_epoll_fd` on a queue that holds one record for such a destination
takes the record from the queue, sends nothing and leaves the backlog
buffer empty: the record is lost. -/
theorem forward_to_disconnected_drops (snd : Nat → Int) (destid failmsg : Nat)
    (buffer : export_buffer) (msg : export_record) :
    (forward_message snd
      { destid := destid, fd := -1, failmsg := failmsg, buffer := buffer } msg).ret = 0 ∧
    (forward_message snd
      { destid := destid, fd := -1, failmsg := failmsg, buffer := buffer } msg).sends = [] ∧
    (forward_message snd
      { destid := destid, fd := -1, failmsg := failmsg, buffer := buffer } msg).dest.buffer =
        buffer ∧
    (check_epoll_fd (fun _ => snd)
        (exporter_with [dest_down] [openli_export_recv.etsirec (record_for 7)])
        (queue_event 0)).2 = 0 ∧
    (check_epoll_fd (fun _ => snd)
        (exporter_with [dest_down] [openli_export_recv.etsirec (record_for 7)])
        (queue_event 0)).1.queues 0 = [] ∧
    (check_epoll_fd (fun _ => snd)
        (exporter_with [dest_down] [openli_export_recv.etsirec (record_for 7)])
        (queue_event 0)).1.sends = [] ∧
    (check_epoll_fd (fun _ => snd)
        (exporter_with [dest_down] [openli_export_recv.etsirec (record_for 7)])
        (queue_event 0)).1.dests.map (fun d => (d.fd, get_buffered_amount d.buffer)) =
      [(-1, 0)] := by
  refine ⟨rfl, rfl, rfl, rfl, rfl, rfl, rfl⟩

/-- C12 (the code at the failing input): a record whose `send` fails has its
destination closed and marked with `fd = -1`, and the queue is drained to
its end, but `check_epoll_fd` returns the -1 that the record left in `ret`,
and on that value `exporter_thread_main` leaves its event loop; a record for
an unknown destination id does the same.  Whether the loop is left depends
on the order of the batch: the same two records with the same `send`
results keep the loop running when the failing one comes first, because the
later record overwrites `ret`, and end it when the failing one comes
last. -/
theorem failed_record_leaves_event_loop :
    ((exporter_thread_main conn_demo (fun _ _ => snd_fail) true true
        [some [queue_event 0]]
        (exporter_with [dest_up] [openli_export_recv.etsirec (record_for 8)])).2,
      (exporter_thread_main conn_demo (fun _ _ => snd_fail) true true
        [some [queue_event 0]]
        (exporter_with [dest_up] [openli_export_recv.etsirec (record_for 8)])).1.dests.map
          (fun d => d.fd),
      (exporter_thread_main conn_demo (fun _ _ => snd_fail) true true
        [some [queue_event 0]]
        (exporter_with [dest_up] [openli_export_recv.etsirec (record_for 8)])).1.closed,
      (exporter_thread_main conn_demo (fun _ _ => snd_fail) true true
        [some [queue_event 0]]
        (exporter_with [dest_up] [openli_export_recv.etsirec (record_for 8)])).1.queues 0) =
      (main_status.returned 1, [-1], [5], []) ∧
    (exporter_thread_main conn_demo (fun _ _ => snd_ok) true true
      [some [queue_event 0]]
      (exporter_with [dest_up] [openli_export_recv.etsirec (record_for 99)])).2 =
        main_status.returned 1 ∧
    (exporter_thread_main conn_demo (fun _ _ => snd_ok) true true
      [some [queue_event 0]]
      (exporter_with [dest_up] [openli_export_recv.etsirec (record_for 8)])).2 =
        main_status.in_loop ∧
    ((exporter_thread_main conn_demo snd_first_fails true true
        [some [queue_event 0]]
        (exporter_with [dest_up, dest_up2]
          [openli_export_recv.etsirec (record_for 8),
           openli_export_recv.etsirec (record_for 9)])).2,
      (exporter_thread_main conn_demo snd_first_fails true true
        [some [queue_event 0]]
        (exporter_with [dest_up, dest_up2]
          [openli_export_recv.etsirec (record_for 8),
           openli_export_recv.etsirec (record_for 9)])).1.dests.map (fun d => d.fd)) =
      (main_status.in_loop, [-1, 6]) ∧
    ((exporter_thread_main conn_demo snd_second_fails true true
        [some [queue_event 0]]
        (exporter_with [dest_up, dest_up2]
          [openli_export_recv.etsirec (record_for 9),
           openli_export_recv.etsirec (record_for 8)])).2,
      (exporter_thread_main conn_demo snd_second_fails true true
        [some [queue_event 0]]
        (exporter_with [dest_up, dest_up2]
          [openli_export_recv.etsirec (record_for 9),
           openli_export_recv.etsirec (record_for 8)])).1.dests.map (fun d => d.fd)) =
      (main_status.returned 1, [-1, 6]) := by
  decide

/-- C17 (as stated, refuted): packet-release messages are not counted, so a
queue of 26 of them is emptied by a single call: 26 messages are removed. -/
theorem packet_fins_are_not_counted :
    ((exporter_with [dest_up]
        (List.replicate 26 (openli_export_recv.packet_fin 1))).queues 0).length = 26 ∧
    (check_epoll_fd (fun _ => snd_ok)
      (exporter_with [dest_up] (List.replicate 26 (openli_export_recv.packet_fin 1)))
      (queue_event 0)).1.queues 0 = [] ∧
    (check_epoll_fd (fun _ => snd_ok)
      (exporter_with [dest_up] (List.replicate 26 (openli_export_recv.packet_fin 1)))
      (queue_event 0)).1.destroyed.length = 26 := by
  decide

/-- C17 (amended): a single `check_epoll_fd` call for a readable queue event
removes a front part of the queue that holds at most `MAX_READ_BATCH` (25)
export records; packet-release messages are not counted.  If messages are
left in the queue, the removed part holds exactly 25 export records. -/
theorem bounded_batch_of_records (snd : Nat → Nat → Int) (st : exporter_state) (q : Nat) :
    ∃ removed,
      st.queues q = removed ++ (check_epoll_fd snd st (queue_event q)).1.queues q ∧
      removed.countP is_etsirec ≤ MAX_READ_BATCH ∧
      ((check_epoll_fd snd st (queue_event q)).1.queues q ≠ [] →
        removed.countP is_etsirec = MAX_READ_BATCH) := by
  obtain ⟨removed, h1, h2, h3⟩ :=
    drain_queue_bound snd (st.queues q) 0 0 st 0 (Nat.zero_le _)
  have e : (check_epoll_fd snd st (queue_event q)).1.queues q =
      (drain_queue snd (st.queues q) 0 0 st 0).remaining := by
    rw [check_epoll_fd_queue]
    simp
  rw [e]
  exact ⟨removed, h1, by omega, fun hne => by have := h3 hne; omega⟩

/-- Example for C17: of 30 export records for an unknown destination a single
call takes 25 and leaves 5. -/
theorem bounded_batch_of_records_witness :
    ((check_epoll_fd (fun _ => snd_ok)
      (exporter_with [dest_up]
        (List.replicate 30 (openli_export_recv.etsirec (record_for 99))))
      (queue_event 0)).1.queues 0).length = 5 := by
  obtain ⟨removed, h1, h2, _⟩ := bounded_batch_of_records (fun _ => snd_ok)
    (exporter_with [dest_up]
      (List.replicate 30 (openli_export_recv.etsirec (record_for 99)))) 0
  decide

/-! ## Growth step, return value and shrink policy of the buffer -/

theorem extend_loop_count (alloc : Nat → Bool) (need : Nat) :
    ∀ (fuel k : Nat) (buf : export_buffer) (sl : Nat) (b1 : export_buffer),
      buffer_inv buf → sl = buf.alloced - buf.used →
      extend_loop alloc need fuel k buf sl = some (b1, false) →
      (¬ sl < need → b1 = buf) ∧
      (sl < need → ∃ j, 1 ≤ j ∧ b1.alloced = buf.alloced + j * BUFFER_ALLOC_SIZE ∧
        b1.deadfront = 0 ∧ b1.used = buf.used - buf.deadfront ∧
        buf.used - buf.deadfront + need ≤ buf.alloced + j * BUFFER_ALLOC_SIZE ∧
        ∀ i, 1 ≤ i → i < j →
          buf.alloced + i * BUFFER_ALLOC_SIZE < buf.used - buf.deadfront + need) := by
  intro fuel
  induction fuel with
  | zero =>
      intro k buf sl b1 hinv hsl h
      simp only [extend_loop] at h
      by_cases hlt : sl < need
      · rw [if_pos hlt] at h
        exact absurd h (by simp)
      · rw [if_neg hlt] at h
        simp only [Option.some.injEq, Prod.mk.injEq, and_true] at h
        exact ⟨fun _ => h.symm, fun hc => absurd hc hlt⟩
  | succ fuel ih =>
      intro k buf sl b1 hinv hsl h
      simp only [extend_loop] at h
      by_cases hlt : sl < need
      · rw [if_pos hlt] at h
        refine ⟨fun hc => absurd hlt hc, fun _ => ?_⟩
        cases hk : alloc k with
        | false =>
            rw [hk] at h
            rw [if_pos (by simp [extend_buffer])] at h
            simp at h
        | true =>
            rw [hk] at h
            obtain ⟨hi, he, hne, hge⟩ := extend_buffer_ok_inv buf hinv
            rw [if_neg hne] at h
            obtain ⟨g1, g2⟩ := ih (k + 1) _ _ b1 hi he h
            obtain ⟨f1, f2, f3, f4, f5, f6⟩ := extend_buffer_ok_fields buf
            obtain ⟨d1, d2⟩ := hinv
            by_cases hlt2 : (extend_buffer true buf).2 < need
            · obtain ⟨j, j1, j2, j3, j4, j5, j6⟩ := g2 hlt2
              rw [f1, f2, f3] at j5
              rw [f1, f2, f3] at j6
              rw [f3] at j2
              rw [f1, f2] at j4
              rw [f6] at hlt2
              simp only [BUFFER_ALLOC_SIZE] at *
              refine ⟨j + 1, by omega, by omega, j3, by omega, by omega, ?_⟩
              intro i i1 i2
              by_cases hi1 : i = 1
              · subst hi1; omega
              · have := j6 (i - 1) (by omega) (by omega)
                have e : i - 1 + 1 = i := by omega
                omega
            · have hb := g1 hlt2
              rw [f6] at hlt2
              subst hb
              simp only [BUFFER_ALLOC_SIZE] at *
              refine ⟨1, le_refl _, by omega, f2, f1, by omega, ?_⟩
              intro i i1 i2
              omega
      · rw [if_neg hlt] at h
        simp only [Option.some.injEq, Prod.mk.injEq, and_true] at h
        exact ⟨fun _ => h.symm, fun hc => absurd hc hlt⟩

/-- C16 (as stated, refuted): a full buffer of one increment with 100 dead
bytes takes a 50-byte record; the record would fit once the dead bytes are
reclaimed, yet the capacity grows to two increments. -/
theorem growth_without_need :
    get_buffered_amount full_dead_buf + 50 ≤ full_dead_buf.alloced ∧
    (append_etsipdu_to_buffer alloc_ok full_dead_buf (List.replicate 50 7) 50 0).map
      (fun res => (res.oom, res.buf.alloced, res.buf.deadfront)) =
      some (false, 2 * BUFFER_ALLOC_SIZE, 0) := by
  decide

/-- C16 (amended): a successful `append_etsipdu_to_buffer` of `pdulen` bytes
leaves capacity and `deadfront` as they were when the record fits behind the
stored bytes (`used + pdulen ≤ capacity`); otherwise it compacts the buffer
and leaves capacity `C + k * BUFFER_ALLOC_SIZE` for the least `k ≥ 1` with
`n + pdulen ≤ C + k * BUFFER_ALLOC_SIZE`, where `n` is the number of unsent
bytes: at least one increment is added even if reclaiming the dead front
alone would have made room. -/
theorem growth_step (alloc : Nat → Bool) (buf : export_buffer) (hinv : buffer_inv buf)
    (pdustart : List Nat) (pdulen beensent : Nat) :
    ∃ res, append_etsipdu_to_buffer alloc buf pdustart pdulen beensent = some res ∧
      (res.oom = false →
        (buf.used + pdulen ≤ buf.alloced →
          res.buf.alloced = buf.alloced ∧ res.buf.deadfront = buf.deadfront) ∧
        (buf.alloced < buf.used + pdulen →
          ∃ k, 1 ≤ k ∧ res.buf.alloced = buf.alloced + k * BUFFER_ALLOC_SIZE ∧
            res.buf.deadfront = 0 ∧
            get_buffered_amount buf + pdulen ≤ buf.alloced + k * BUFFER_ALLOC_SIZE ∧
            ∀ j, 1 ≤ j →
              get_buffered_amount buf + pdulen ≤ buf.alloced + j * BUFFER_ALLOC_SIZE →
              k ≤ j)) := by
  obtain ⟨⟨b1, oom⟩, h⟩ := loop_from_hint_total alloc pdulen buf beensent hinv
  rw [append_etsipdu_eq, h]
  cases oom with
  | true => exact ⟨_, rfl, fun hc => absurd hc (by simp)⟩
  | false =>
      refine ⟨_, rfl, fun _ => ?_⟩
      obtain ⟨_, h2, h3, h4, _, _⟩ := with_hint_fields buf beensent
      obtain ⟨g1, g2⟩ :=
        extend_loop_count alloc pdulen (pdulen + 1) 0 _ _ b1
          (with_hint_inv buf beensent hinv) (by rw [h2, h3]) h
      obtain ⟨d1, d2⟩ := hinv
      constructor
      · intro hfit
        have hb := g1 (by omega)
        subst hb
        exact ⟨h3, h4⟩
      · intro hgrow
        obtain ⟨k, k1, k2, k3, _, k5, k6⟩ := g2 (by omega)
        rw [h2, h3, h4] at k5
        rw [h2, h3, h4] at k6
        rw [h3] at k2
        refine ⟨k, k1, k2, k3, k5, ?_⟩
        intro j j1 j2
        by_contra hlt
        have := k6 j j1 (by omega)
        simp only [get_buffered_amount] at j2
        omega

/-- Witness for C16: three bytes appended to a full buffer of one increment
add one increment. -/
theorem growth_step_witness :
    buffer_inv full_buf ∧
    ∃ res, append_etsipdu_to_buffer alloc_ok full_buf [1, 2, 3] 3 0 = some res ∧
      res.buf.alloced = full_buf.alloced + 1 * BUFFER_ALLOC_SIZE := by
  have hinv : buffer_inv full_buf := by unfold buffer_inv; decide
  obtain ⟨res, h1, h2⟩ := growth_step alloc_ok full_buf hinv [1, 2, 3] 3 0
  have hoom : res.oom = false := by
    have e : (append_etsipdu_to_buffer alloc_ok full_buf [1, 2, 3] 3 0).map
        (fun r => r.oom) = some false := by decide
    rw [h1] at e
    simpa using e
  obtain ⟨k, k1, k2, _, _, k5⟩ := (h2 hoom).2 (by decide)
  have hk : k ≤ 1 := k5 1 (le_refl _) (by decide)
  have hk1 : k = 1 := by omega
  subst hk1
  exact ⟨hinv, res, h1, k2⟩

/-- C18 (as stated, refuted): a zero-length record appended to a freshly
initialised buffer succeeds, no allocation is made, and the call returns
0. -/
theorem empty_append_returns_zero :
    (append_etsipdu_to_buffer alloc_ok (init_export_buffer true) [] 0 0).map
      (fun res => (res.oom, res.ret, res.buf.alloced)) = some (false, 0, 0) := by
  decide

/-- C18 (amended): `append_etsipdu_to_buffer` returns 0 when growing the
buffer failed; an append that succeeds returns the used length
`buftail - bufhead` after the call, which is 0 exactly when the record has
length 0 and the used length of the buffer was 0.  So the call returns 0 if
and only if growing failed or a zero-length record was appended to a buffer
whose used length is 0. -/
theorem append_return_value (alloc : Nat → Bool) (buf : export_buffer)
    (hinv : buffer_inv buf) (pdustart : List Nat) (pdulen beensent : Nat) :
    ∃ res, append_etsipdu_to_buffer alloc buf pdustart pdulen beensent = some res ∧
      (res.oom = true → res.ret = 0) ∧
      (res.oom = false → res.ret = res.buf.used) ∧
      (res.ret = 0 ↔ res.oom = true ∨ (pdulen = 0 ∧ buf.used = 0)) := by
  obtain ⟨⟨b1, oom⟩, h⟩ := loop_from_hint_total alloc pdulen buf beensent hinv
  rw [append_etsipdu_eq, h]
  cases oom with
  | true => exact ⟨_, rfl, fun _ => rfl, fun hc => absurd hc (by simp), by simp⟩
  | false =>
      refine ⟨_, rfl, fun hc => absurd hc (by simp), fun _ => rfl, ?_⟩
      obtain ⟨_, h2, h3, h4, _, _⟩ := with_hint_fields buf beensent
      obtain ⟨g1, g2⟩ :=
        extend_loop_count alloc pdulen (pdulen + 1) 0 _ _ b1
          (with_hint_inv buf beensent hinv) (by rw [h2, h3]) h
      simp only [Bool.false_eq_true, false_or]
      by_cases hlt : buf.alloced - buf.used < pdulen
      · obtain ⟨k, _, _, _, k4, _, _⟩ := g2 hlt
        constructor
        · intro h0; omega
        · intro h0; omega
      · have hb := g1 hlt
        subst hb
        rw [h2]
        omega

/-- Witness for C18: a one-byte record appended to a fresh buffer returns
1. -/
theorem append_return_value_witness :
    buffer_inv (init_export_buffer true) ∧
    ∃ res, append_etsipdu_to_buffer alloc_ok (init_export_buffer true) [7] 1 0 = some res ∧
      res.ret ≠ 0 := by
  have hinv : buffer_inv (init_export_buffer true) := by unfold buffer_inv; decide
  obtain ⟨res, h1, h2, h3, h4⟩ :=
    append_return_value alloc_ok (init_export_buffer true) hinv [7] 1 0
  have hoom : res.oom = false := by
    have e : (append_etsipdu_to_buffer alloc_ok (init_export_buffer true) [7] 1 0).map
        (fun r => r.oom) = some false := by decide
    rw [h1] at e
    simpa using e
  refine ⟨hinv, res, h1, ?_⟩
  intro h0
  rcases h4.mp h0 with e | e
  · rw [hoom] at e; exact absurd e (by simp)
  · exact absurd e.1 (by decide)

end OpenLI
